import Mathlib

set_option autoImplicit false

/-!
Verification development for the GCS event-based BigQuery ingest cloud function
(`tools/cloud_functions/gcs_event_based_ingest/gcs_ocn_bq_ingest/`).

The Python sources are shallowly embedded: pure fragments become Lean
functions, object-store interaction becomes explicit state passing over a
store modelled as an association list of object keys, and fallible code
returns `Except`.  Python `str` values are modelled as `String` or as
`List Char` where character-level manipulation matters.
-/

namespace BQIngest

/-- Python dict assignment `d[k] = v` on an insertion-ordered dict modelled as
an association list: replace in place when the key exists, append otherwise. -/
def assocSet {κ α : Type} [DecidableEq κ] : List (κ × α) → κ → α → List (κ × α)
  | [], k, v => [(k, v)]
  | (k1, v1) :: t, k, v =>
    if k1 = k then (k1, v) :: t else (k1, v1) :: assocSet t k v

/-- JSON values as produced by `json.loads`: insertion-ordered objects,
arrays, and scalars. -/
inductive JVal where
  | str : String → JVal
  | num : Int → JVal
  | bool : Bool → JVal
  | null : JVal
  | arr : List JVal → JVal
  | obj : List (String × JVal) → JVal
  deriving Repr

/-- Python `d.get(k)` / key lookup on an insertion-ordered dict modelled as
an association list. -/
def assocGet {κ α : Type} [DecidableEq κ] : List (κ × α) → κ → Option α
  | [], _ => none
  | (k1, v1) :: t, k => if k1 = k then some v1 else assocGet t k

/-- The two phases of a `utils.recursive_update` activation on JSON trees:
`top` is a call `recursive_update(original, update)`, `items` is the
`for key, value in update.items()` loop over the current `out` with the
remaining items. -/
inductive PUTask where
  | top (original : JVal) (upd : JVal)
  | items (out : JVal) (pending : List (String × JVal))

/-- Model of `utils.recursive_update` (`utils.py:380-399`) on JSON trees
(`json.loads` output has no aliasing, so the deep copy taken for
`in_place=False` is the identity here; the heap model below captures the
reference semantics):

  out = original if in_place else copy.deepcopy(original)
  for key, value in update.items():
      if isinstance(value, dict):
          out[key] = recursive_update(out.get(key, {}), value)
      else:
          out[key] = value
  return out

`out.get(key, {})` on a non-dict `out` raises `AttributeError`,
`out[key] = ...` on a non-dict `out` raises `TypeError`, and `.items()` on
a non-dict update raises `AttributeError`; all are modelled as `.error ()`.
The fuel argument (one unit per call or loop step) only makes the recursion
structural; `none` (exhaustion) cannot occur once `fuel` exceeds the number
of constructors of `update`, so any sufficiently large fuel gives the
code's behaviour. -/
def recursive_update_pure_run : Nat → PUTask → Option (Except Unit JVal)
  | _, .items out [] => some (.ok out)
  | 0, _ => none
  | fuel + 1, .top original upd =>
    match upd with
    | .obj entries => recursive_update_pure_run fuel (.items original entries)
    | _ => some (.error ())
  | fuel + 1, .items out ((k, v) :: rest) =>
    match v with
    | .obj _ =>
      match out with
      | .obj oE =>
        match recursive_update_pure_run fuel
            (.top ((assocGet oE k).getD (.obj [])) v) with
        | none => none
        | some (.error e) => some (.error e)
        | some (.ok r) =>
          recursive_update_pure_run fuel (.items (.obj (assocSet oE k r)) rest)
      | _ => some (.error ())
    | _ =>
      match out with
      | .obj oE =>
        recursive_update_pure_run fuel (.items (.obj (assocSet oE k v)) rest)
      | _ => some (.error ())

/-- `utils.recursive_update(original, update)` on JSON trees; `fuel` bounds
the recursion depth and is irrelevant once large enough. -/
def recursive_update_pure (fuel : Nat) (original update : JVal) :
    Option (Except Unit JVal) :=
  recursive_update_pure_run fuel (.top original update)

/-! ## Constants (`constants.py`) -/

/-- `constants.MAX_SOURCE_URIS_PER_LOAD = 10**4` (`constants.py:65`). -/
def MAX_SOURCE_URIS_PER_LOAD : Nat := 10 ^ 4

/-- `constants.DEFAULT_MAX_BATCH_BYTES = 15 * 10**12` (`constants.py:62`). -/
def DEFAULT_MAX_BATCH_BYTES : Nat := 15 * 10 ^ 12

/-- `constants.SUCCESS_FILENAME` with the default environment. -/
def SUCCESS_FILENAME : String := "_SUCCESS"

/-- `constants.BACKFILL_FILENAME` (`constants.py:93`). -/
def BACKFILL_FILENAME : String := "_BACKFILL"

/-- `constants.DEFAULT_JOB_PREFIX` (`constants.py:69`). -/
def DEFAULT_JOB_PREFIX : String := "gcf-ingest-"

/-- `constants.DEFAULT_JOB_LABELS` (`constants.py:48-51`); the
`cloud-function-name` entry is the `FUNCTION_NAME` environment value,
a parameter here. -/
def DEFAULT_JOB_LABELS (functionName : String) : List (String × JVal) :=
  [("component", .str "event-based-gcs-ingest"),
   ("cloud-function-name", .str functionName)]

/-- `constants.BASE_LOAD_JOB_CONFIG` (`constants.py:53-58`). -/
def BASE_LOAD_JOB_CONFIG (functionName : String) : JVal :=
  .obj [("sourceFormat", .str "CSV"),
        ("fieldDelimiter", .str ","),
        ("writeDisposition", .str "WRITE_APPEND"),
        ("labels", .obj (DEFAULT_JOB_LABELS functionName))]

/-! ## Config resolution walk (`utils.construct_load_job_config`) -/

/-- `"/".join parts`. -/
def joinParts : List String → String
  | [] => ""
  | [p] => p
  | p :: rest => p ++ "/" ++ joinParts rest

/-- The config object key queried by `_get_parent_config_file` for the path
`"/".join(parts)`: `pathlib.Path(path).parent / "_config" / "load.json"`.
For a single component `pathlib` gives parent `"."`, so the key degenerates
to `_config/load.json` at the bucket root. -/
def parentLoadConfigPath (parts : List String) : String :=
  match parts.dropLast with
  | [] => "_config/load.json"
  | ps => joinParts ps ++ "/_config/load.json"

/-- The sequence of config keys queried by the
`while parts: ...; parts.pop()` loop of `utils.construct_load_job_config`
(`utils.py:192-196`), in query order (deepest parent first). -/
def configQueryPathsFuel : Nat → List String → List String
  | 0, _ => []
  | _ + 1, [] => []
  | fuel + 1, p :: ps =>
    parentLoadConfigPath (p :: ps) :: configQueryPathsFuel fuel (p :: ps).dropLast

def configQueryPaths (parts : List String) : List String :=
  configQueryPathsFuel parts.length parts

/-- Model of `utils.construct_load_job_config` (`utils.py:174-202`).
`lookupConfig` returns `json.loads` of the object at a key when it exists
(the `_get_parent_config_file` read); `parts` are the components of the
gsurl object path after stripping a trailing slash.  The code builds
`config_q = deque([BASE, nearest, ..., farthest])` by appending in query
order, then folds `recursive_update` over `popleft()` results, so later
(farther) configs are applied last. -/
def construct_load_job_config (fuel : Nat) (functionName : String)
    (lookupConfig : String → Option JVal) (parts : List String) :
    Option (Except Unit JVal) :=
  let configs := (configQueryPaths parts).filterMap lookupConfig
  (((BASE_LOAD_JOB_CONFIG functionName :: configs).foldlM
    (fun acc c => (recursive_update_pure fuel acc c : ExceptT Unit Option JVal))
    (.obj [])) : ExceptT Unit Option JVal)

/-- `str.startswith`: prefix test on the character lists (structurally
recursive, unlike `String.isPrefixOf`). -/
def strStartsWith (s pre : String) : Bool :=
  pre.toList.isPrefixOf s.toList

/-! ## Batcher (`utils.get_batches_for_prefix`) -/

structure BatchState where
  batches : List (List String)
  batch : List String
  cum : Nat

/-- Model of `utils.get_batches_for_prefix` (`utils.py:205-264`).
`blobs` is the listing of `(name, size)` pairs returned by
`bucket.list_blobs(prefix=prefix_name, delimiter="/")` in API
(lexicographic) order; `maxBatchSize` models
`int(os.getenv("MAX_BATCH_BYTES", DEFAULT_MAX_BATCH_BYTES))`.
The loop filter and the batching conditional are transcribed verbatim:

  if (blob.name not in {prefix_name + "/", prefix_name + "/" + ignore_file}
          or blob.name.startswith(prefix_name + "/" + ignore_subprefix)):
      if blob.size == 0: continue
      cumulative_bytes += blob.size
      if cumulative_bytes <= max_batch_size or len(batch) > MAX_SOURCE_URIS_PER_LOAD:
          batch.append(uri)
      else:
          batches.append(batch.copy()); batch.clear(); batch.append(uri)
          cumulative_bytes = blob.size

The empty-result case raises `NotFound`, modelled as `.error ()`. -/
def get_batches_for_prefix (bucketName prefixName ignoreSub ignoreFile : String)
    (blobs : List (String × Nat)) (maxBatchSize : Nat) :
    Except Unit (List (List String)) :=
  let step : BatchState → (String × Nat) → BatchState := fun st blob =>
    let name := blob.1
    let size := blob.2
    if name ∉ [prefixName ++ "/", prefixName ++ "/" ++ ignoreFile]
        ∨ strStartsWith name (prefixName ++ "/" ++ ignoreSub) = true then
      if size = 0 then st
      else
        let cum := st.cum + size
        if cum ≤ maxBatchSize ∨ MAX_SOURCE_URIS_PER_LOAD < st.batch.length then
          { st with batch := st.batch ++ ["gs://" ++ bucketName ++ "/" ++ name],
                    cum := cum }
        else
          { batches := st.batches ++ [st.batch],
            batch := ["gs://" ++ bucketName ++ "/" ++ name],
            cum := size }
    else st
  let fin := blobs.foldl step ⟨[], [], 0⟩
  let batches := if fin.batch.length > 0 then fin.batches ++ [fin.batch] else fin.batches
  if batches = [] then .error () else .ok batches

/-! ## Idempotent claim (`utils.handle_duplicate_notification`) -/

/-- Python `str.replace(pat, rep)` for a non-empty `pat`: replace every
non-overlapping occurrence, scanning left to right.  The fuel argument (one
unit per consumed character) only makes the recursion structural; with
`fuel = s.length` it never runs out, since every step consumes at least one
character when `pat` is non-empty.  (For `pat = []` this returns `s`
unchanged; all call sites pass a non-empty pattern.) -/
def replaceAllFuel (pat rep : List Char) : Nat → List Char → List Char
  | 0, s => s
  | _ + 1, [] => []
  | fuel + 1, c :: rest =>
    if pat ≠ [] ∧ pat.isPrefixOf (c :: rest) then
      rep ++ replaceAllFuel pat rep fuel ((c :: rest).drop pat.length)
    else
      c :: replaceAllFuel pat rep fuel rest

def replaceAll (pat rep s : List Char) : List Char :=
  replaceAllFuel pat rep s.length s

/-- `os.path.basename`: the substring after the last `/`. -/
def basenameOf (s : List Char) : List Char :=
  (s.reverse.takeWhile (fun c => !(c == '/'))).reverse

/-- The claim-object key computed by `utils.handle_duplicate_notification`
(`utils.py:415-419`):

  basename = os.path.basename(blob_to_claim.name)
  claim_blob = blob.name.replace(basename,
      "_claimed_" + basename + "_created_at_" + str(created_unix_timestamp))

Note `str.replace` replaces every occurrence of `basename` in the path. -/
def claimKeyOf (name ts : List Char) : List Char :=
  replaceAll (basenameOf name)
    (("_claimed_").toList ++ basenameOf name ++ ("_created_at_").toList ++ ts)
    name

/-- `upload_from_string("", if_generation_match=0)`: the conditional create
succeeds iff no generation of the key exists; `PreconditionFailed`
otherwise.  The store is the set of existing object keys. -/
def create_object_if_absent (store : List (List Char)) (key : List Char) :
    Except Unit (List (List Char)) :=
  if key ∈ store then .error () else .ok (key :: store)

/-- Model of `utils.handle_duplicate_notification` (`utils.py:402-430`) for a
blob with path `name` whose metadata creation time stringifies to `ts`:
create the claim key with `if_generation_match=0`; `PreconditionFailed` is
re-raised as `DuplicateNotificationException` (the `.error` outcome). -/
def handle_duplicate_notification (store : List (List Char)) (name ts : List Char) :
    Except Unit (List (List Char)) :=
  create_object_if_absent store (claimKeyOf name ts)

/-! ## Destination path parsing (`constants.DESTINATION_REGEX`)

The default pattern (`constants.py:72-84`), matched with `re.match` (prefix
match, leftmost-greedy with backtracking):

  (?P<dataset>[\w\-\._0-9]+)/(?P<table>[\w\-_0-9]+)/?(?P<partition>\$[0-9]+)?/?
  (?:(?P<yyyy>[0-9]{4})/?(?P<mm>[0-9]{2})?/?(?P<dd>[0-9]{2})?/?(?P<hh>[0-9]{2})?/?)?
  (?P<batch>[\w\-_0-9]+)?/

`dataset` and `table` are runs of class characters that exclude `/`, each
followed by a literal or optional `/`; backtracking can never shorten them
in a successful match, so they are modelled as maximal runs.  The tail after
the `table` capture is matched by an explicit preference-ordered candidate
search that mirrors the engine's backtracking (greedy options first, each
optional group participating before not participating), selecting the first
candidate whose remainder begins with the final required `/`.
`\w` is modelled as ASCII alphanumerics plus underscore. -/

def isWordChar (c : Char) : Bool := c.isAlphanum || c == '_'

def isDatasetChar (c : Char) : Bool := isWordChar c || c == '-' || c == '.'

def isTableChar (c : Char) : Bool := isWordChar c || c == '-'

/-- Captures of a successful `DESTINATION_REGEX` match (`None` groups are
`none`). -/
structure DestMatch where
  dataset : List Char
  table : List Char
  partition : Option (List Char)
  yyyy : Option (List Char)
  mm : Option (List Char)
  dd : Option (List Char)
  hh : Option (List Char)
  batch : Option (List Char)
  deriving Repr, DecidableEq

/-- Captures of the regex tail after the `table` group. -/
structure DestTail where
  partition : Option (List Char)
  yyyy : Option (List Char)
  mm : Option (List Char)
  dd : Option (List Char)
  hh : Option (List Char)
  batch : Option (List Char)
  deriving Repr, DecidableEq

/-- `/?`: both continuations, consuming first (greedy preference). -/
def optSlash : List Char → List (List Char)
  | '/' :: r => [r, '/' :: r]
  | t => [t]

/-- `[0-9]{n}` at the head of `t`. -/
def takeDigits (n : Nat) (t : List Char) : Option (List Char × List Char) :=
  let pre := t.take n
  if pre.length = n ∧ pre.all Char.isDigit then some (pre, t.drop n) else none

/-- `([0-9]{2})?`: participating first. -/
def opt2Digits (t : List Char) : List (Option (List Char) × List Char) :=
  match takeDigits 2 t with
  | some (d, r) => [(some d, r), (none, t)]
  | none => [(none, t)]

/-- `(\$[0-9]+)?`: participating with the longest digit run first, then ever
shorter runs, then not participating. -/
def partitionCands (t : List Char) : List (Option (List Char) × List Char) :=
  (match t with
   | '$' :: r =>
     let ds := r.takeWhile Char.isDigit
     let rest := r.dropWhile Char.isDigit
     (List.range ds.length).map (fun i =>
       let k := ds.length - i
       (some ('$' :: ds.take k), ds.drop k ++ rest))
   | _ => []) ++ [(none, t)]

/-- `(?:yyyy/?mm?/?dd?/?hh?/?)?`: participating alternatives in backtracking
order (later options vary fastest), then not participating. -/
def dateCands (t : List Char) :
    List ((Option (List Char) × Option (List Char) × Option (List Char) ×
      Option (List Char)) × List Char) :=
  (match takeDigits 4 t with
   | some (y, t1) =>
     (optSlash t1).flatMap (fun t2 =>
       (opt2Digits t2).flatMap (fun mc =>
         (optSlash mc.2).flatMap (fun t4 =>
           (opt2Digits t4).flatMap (fun dc =>
             (optSlash dc.2).flatMap (fun t6 =>
               (opt2Digits t6).flatMap (fun hc =>
                 (optSlash hc.2).map (fun t8 =>
                   ((some y, mc.1, dc.1, hc.1), t8))))))))
   | none => []) ++ [((none, none, none, none), t)]

/-- `([\w\-_0-9]+)?` (the batch group): longest run first, then shorter, then
not participating. -/
def batchCands (t : List Char) : List (Option (List Char) × List Char) :=
  (let run := t.takeWhile isTableChar
   (List.range run.length).map (fun i =>
     let k := run.length - i
     (some (run.take k), run.drop k ++ t.dropWhile isTableChar))) ++ [(none, t)]

/-- All tail candidates in backtracking preference order. -/
def tailCands (t : List Char) : List (DestTail × List Char) :=
  (optSlash t).flatMap (fun t1 =>
    (partitionCands t1).flatMap (fun pc =>
      (optSlash pc.2).flatMap (fun t3 =>
        (dateCands t3).flatMap (fun dc =>
          (batchCands dc.2).map (fun bc =>
            ({ partition := pc.1, yyyy := dc.1.1, mm := dc.1.2.1,
               dd := dc.1.2.2.1, hh := dc.1.2.2.2, batch := bc.1 }, bc.2))))))

/-- The first tail candidate whose remainder starts with the required
final `/`. -/
def parseTail (t : List Char) : Option DestTail :=
  ((tailCands t).find? (fun c =>
    match c.2 with
    | '/' :: _ => true
    | _ => false)).map (fun c => c.1)

/-- `constants.DESTINATION_REGEX.match(object_id)` with named captures: a
non-empty dataset run followed by a literal `/`, a non-empty table run, and
a successful tail match. -/
def destinationMatch (s : List Char) : Option DestMatch :=
  let ds := s.takeWhile isDatasetChar
  let rest1 := s.dropWhile isDatasetChar
  if ds ≠ [] ∧ rest1.head? = some '/' then
    let r2 := rest1.tail
    let tab := r2.takeWhile isTableChar
    if tab ≠ [] then
      match parseTail (r2.dropWhile isTableChar) with
      | some tl =>
        some { dataset := ds, table := tab, partition := tl.partition,
               yyyy := tl.yyyy, mm := tl.mm, dd := tl.dd, hh := tl.hh,
               batch := tl.batch }
      | none => none
    else none
  else none

/-- Model of `utils.get_table_prefix` (`utils.py:433-453`): on a match,
`object_id[:match.regs[table_group_index][1]]`, the slice of the object id up
to the end index of the `table` capture (here `|dataset| + 1 + |table|`);
`DestinationRegexMatchException` (no match) is `none`. -/
def getTablePrefix (s : List Char) : Option (List Char) :=
  (destinationMatch s).map (fun m => s.take (m.dataset.length + 1 + m.table.length))

/-- The partition derivation of `utils.gcs_path_to_table_ref_and_batch`
(`utils.py:590-595`):

  partition = destination_details.get('partition')
  year, month, day, hour = (destination_details.get(key, "")
                            for key in ('yyyy', 'mm', 'dd', 'hh'))
  part_list = (year, month, day, hour)
  if not partition and any(part_list):
      partition = "$" + "".join(part_list)

`groupdict()` stores `None` (not `""`) for a non-participating group, so the
`.get` default never applies and `"".join` raises `TypeError` whenever some
but not all of the four components are `None`; that exception is `.error ()`. -/
def derivePartition (m : DestMatch) : Except Unit (Option (List Char)) :=
  let parts := [m.yyyy, m.mm, m.dd, m.hh]
  match m.partition with
  | some p => .ok (some p)
  | none =>
    if parts.any Option.isSome then
      if parts.all Option.isSome then
        .ok (some ('$' :: (parts.filterMap id).flatten))
      else .error ()
    else .ok none

/-! ## Ordered-path publisher (`ordering.backlog_publisher`) -/

/-- Object-store operations performed by the ordering code, for trace
statements. -/
inductive GcsAction where
  | upload (key : List Char)
  | uploadIfAbsent (key : List Char)
  | existsCheck (key : List Char)
  | sleep (seconds : Nat)
  | waitOnBlob (key : List Char) (timeout : Nat)
  deriving Repr, DecidableEq

/-- `utils.removeprefix` (`utils.py:365-369`). -/
def removePrefixStr (s pre : List Char) : List Char :=
  if pre.isPrefixOf s then s.drop pre.length else s

/-- Model of `ordering.success_blob_to_backlog_blob` (`ordering.py:199-207`):
`<table-prefix>/_backlog/<success path relative to the table prefix>`;
`none` when `get_table_prefix` raises. -/
def success_blob_to_backlog_blob (name : List Char) : Option (List Char) :=
  (getTablePrefix name).map (fun tp =>
    tp ++ ("/_backlog/").toList ++ removePrefixStr name (tp ++ ['/']))

structure PubEnv where
  startBackfillFilename : Option (List Char)
  deriving Repr, DecidableEq

/-- Model of `ordering.start_backfill_subscriber_if_not_running`
(`ordering.py:160-196`) over a store of existing object keys, returning the
updated store and the trace of object-store operations performed.  When
`START_BACKFILL_FILENAME` is configured the gate blob must exist before the
conditional `_BACKFILL` create is attempted; the `PreconditionFailed` branch
only logs and returns. -/
def start_backfill_subscriber_if_not_running (env : PubEnv)
    (store : List (List Char)) (tp : List Char) :
    List (List Char) × List GcsAction :=
  let bk := tp ++ ('/' :: BACKFILL_FILENAME.toList)
  let attempt : List (List Char) × List GcsAction :=
    if bk ∈ store then (store, [.uploadIfAbsent bk])
    else (bk :: store, [.uploadIfAbsent bk])
  match env.startBackfillFilename with
  | some sbf =>
    let sbfKey := tp ++ ('/' :: sbf)
    if sbfKey ∈ store then (attempt.1, .existsCheck sbfKey :: attempt.2)
    else (store, [.existsCheck sbfKey])
  | none => attempt

/-- Model of `ordering.backlog_publisher` (`ordering.py:33-47`): create the
backlog entry with an unconditional empty upload, call
`start_backfill_subscriber_if_not_running`, and return.  The trace is the
complete sequence of object-store operations the function performs before
returning to `main`. -/
def backlog_publisher (env : PubEnv) (store : List (List Char))
    (eventBlobName : List Char) :
    Option (List (List Char) × List GcsAction) :=
  (success_blob_to_backlog_blob eventBlobName).bind (fun backlogKey =>
    (getTablePrefix eventBlobName).map (fun tp =>
      let store1 := if backlogKey ∈ store then store else backlogKey :: store
      let r := start_backfill_subscriber_if_not_running env store1 tp
      (r.1, .upload backlogKey :: r.2)))

/-! ## Ordered-path subscriber (`ordering.backlog_subscriber`) -/

/-- Outcome of polling a BigQuery job id for one `polling_timeout` window
(`utils.wait_on_bq_job_id`, `utils.py:509-541`): terminal success, terminal
failure (`BigQueryJobFailure`), unknown job id (`NotFound` from `get_job`),
or still `RUNNING`/`PENDING` when the poll times out (returns `False`). -/
inductive JobOutcome where
  | doneOk
  | doneErr
  | notFound
  | running
  deriving Repr, DecidableEq

/-- `bq_client.get_job(job_id)` results; an id absent from the job table is
`NotFound`. -/
def wait_on_bq_job_id (jobs : List (String × JobOutcome)) (jobId : String) :
    JobOutcome :=
  (jobs.lookup jobId).getD .notFound

inductive SubErr where
  | jobFailure
  | backlogException
  | attributeError
  deriving Repr, DecidableEq

structure SubEnv where
  jobPrefixV : String
  tableP : String
  jobIdFor : String → String

structure SubState where
  store : List (String × String)
  jobs : List (String × JobOutcome)
  dispatched : List String
  lastJobDone : Bool
  deriving Repr, DecidableEq

/-- Delete an object key from the store. -/
def storeDel (store : List (String × String)) (k : String) :
    List (String × String) :=
  store.filter (fun p => !(p.1 == k))

/-- Model of `utils.get_next_backlog_item` (`utils.py:456-478`): the
lexicographically first object under `<table-prefix>/_backlog/` (the list API
returns keys in lexicographic order). -/
def get_next_backlog_item (store : List (String × String)) (tp : String) :
    Option String :=
  ((store.map Prod.fst).filter (fun k => strStartsWith k (tp ++ "/_backlog/"))).foldl
    (fun acc k =>
      match acc with
      | none => some k
      | some m => if k < m then some k else some m) none

inductive IterOut where
  | raiseE (e : SubErr) (st : SubState)
  | next (st : SubState)
  deriving Repr, DecidableEq

/-- The part of a `backlog_subscriber` loop iteration after the lock has been
examined (`ordering.py:109-152`):
step c (pop the completed item when `last_job_done`), step d (list the next
backlog item; on empty, delete `_BACKFILL` and then evaluate
`constants.ENSURE_SUBSCRIBER_SECONDS`, which `constants.py` does not define,
so the branch raises `AttributeError` before reaching the lock release),
step e (map the backlog item to its success file via
`str.replace("/_backlog/", "/")`; absence raises `BacklogException`),
step f (`utils.apply`: write the fresh job id into `_bqlock` and submit the
batch, recorded in `dispatched`). -/
def subscriber_after_lock (env : SubEnv) (st : SubState) : IterOut :=
  let lockKey := env.tableP ++ "/_bqlock"
  let st1 :=
    if st.lastJobDone then
      { st with
        store :=
          match get_next_backlog_item st.store env.tableP with
          | some k => storeDel st.store k
          | none => st.store,
        lastJobDone := false }
    else st
  match get_next_backlog_item st1.store env.tableP with
  | none =>
    .raiseE .attributeError
      { st1 with store := storeDel st1.store (env.tableP ++ "/" ++ BACKFILL_FILENAME) }
  | some item =>
    let successKey : String := ⟨replaceAll ("/_backlog/").toList ("/").toList item.toList⟩
    match st1.store.lookup successKey with
    | none => .raiseE .backlogException st1
    | some _ =>
      let jid := env.jobIdFor successKey
      .next { st1 with
              store := assocSet st1.store lockKey jid,
              dispatched := st1.dispatched ++ [successKey] }

/-- One iteration of the `backlog_subscriber` while-loop
(`ordering.py:74-152`).  Reading the lock uses Python truthiness
(`if lock_contents:`), so an empty lock object behaves like an absent one.
If the contents start with the job prefix the recorded job id is polled:
terminal success sets `last_job_done`, a timed-out poll clears it, and
terminal failure or `NotFound` is re-raised as `BigQueryJobFailure` before
anything else happens in the iteration.  Any other non-empty contents are a
manual hold: sleep and re-check. -/
def backlog_subscriber_iter (env : SubEnv) (st : SubState) : IterOut :=
  let lockKey := env.tableP ++ "/_bqlock"
  match st.store.lookup lockKey with
  | some contents =>
    if contents = "" then subscriber_after_lock env st
    else if strStartsWith contents env.jobPrefixV = true then
      match wait_on_bq_job_id st.jobs contents with
      | .doneOk => subscriber_after_lock env { st with lastJobDone := true }
      | .running => subscriber_after_lock env { st with lastJobDone := false }
      | .doneErr => .raiseE .jobFailure st
      | .notFound => .raiseE .jobFailure st
    else .next st
  | none => subscriber_after_lock env st

inductive SubResult where
  | failed (e : SubErr) (st : SubState)
  | restart (st : SubState)
  deriving Repr, DecidableEq

/-- The `backlog_subscriber` while-loop (`ordering.py:74-157`).  The
wall-clock restart deadline is modelled as fuel: when it runs out the loop
exits and re-uploads `_BACKFILL` to hand off to a fresh invocation
(`ordering.py:153-157`).  An uncaught exception aborts the invocation with
the state at the raise. -/
def backlog_subscriber_loop (env : SubEnv) : Nat → SubState → SubResult
  | 0, st =>
    .restart { st with
               store := assocSet st.store (env.tableP ++ "/" ++ BACKFILL_FILENAME) "" }
  | fuel + 1, st =>
    match backlog_subscriber_iter env st with
    | .raiseE e st2 => .failed e st2
    | .next st2 => backlog_subscriber_loop env fuel st2

/-! ## Coordinator module state (`main.py`, `constants.py`) -/

/-- The module-level mutable domain state touched by `main`:
`constants.ACTION_FILENAMES` (a set that contains `None` when
`START_BACKFILL_FILENAME` is unset, `constants.py:105-109`) and
`constants.DEFAULT_JOB_LABELS` (also aliased by
`constants.BASE_LOAD_JOB_CONFIG["labels"]`). -/
structure ModuleState where
  actionFilenames : List (Option String)
  defaultJobLabels : List (String × String)
  deriving Repr, DecidableEq

/-- Module state at import time. -/
def initialModuleState (startBackfillFilename : Option String)
    (functionName : String) : ModuleState :=
  { actionFilenames := [some SUCCESS_FILENAME, some BACKFILL_FILENAME,
                        startBackfillFilename],
    defaultJobLabels := [("component", "event-based-gcs-ingest"),
                         ("cloud-function-name", functionName)] }

/-- The eager no-op classification of `main.main` (`main.py:49-58`):

  if basename_object_id not in constants.ACTION_FILENAMES:
      action_filenames = constants.ACTION_FILENAMES
      if constants.START_BACKFILL_FILENAME is None:
          action_filenames.remove(None)
      print(...); return

`action_filenames` merely aliases the module-level set, so `remove(None)`
mutates `constants.ACTION_FILENAMES` itself; `set.remove` raises `KeyError`
(`.error ()`) when the element is absent.  Returns the module state after
the fragment and whether the invocation no-opped. -/
def main_action_check (startBackfillFilename : Option String) (st : ModuleState)
    (basename : String) : Except Unit (ModuleState × Bool) :=
  if (some basename) ∈ st.actionFilenames then .ok (st, false)
  else if startBackfillFilename = none then
    if (none : Option String) ∈ st.actionFilenames then
      .ok ({ st with actionFilenames := st.actionFilenames.erase none }, true)
    else .error ()
  else .ok (st, true)

/-- The label mutation in `utils.gcs_path_to_table_ref_and_batch`
(`utils.py:596-600`):

  labels = constants.DEFAULT_JOB_LABELS
  if batch_id:
      labels["batch-id"] = batch_id

`labels` aliases the module-level dict, so the assignment mutates
`constants.DEFAULT_JOB_LABELS` for all later invocations. -/
def gcs_path_job_labels (st : ModuleState) (batchId : Option String) :
    ModuleState :=
  match batchId with
  | some b => { st with defaultJobLabels := assocSet st.defaultJobLabels "batch-id" b }
  | none => st

/-! ## Heap model of `utils.recursive_update` (reference semantics)

`recursive_update` with `in_place=False` promises (docstring,
`utils.py:389-391`) to return a new dictionary; the frame claim is that the
original dict and everything reachable from it are unmodified.  Mutation is
only observable with an explicit heap, so dicts are modelled as heap cells
and all other Python values as opaque immutable payloads (`recursive_update`
neither inspects nor mutates non-dict values — lists are moved by
reference). -/

/-- A value stored in a dict slot: a non-dict payload or a dict reference. -/
inductive PVal where
  | atom : JVal → PVal
  | dictRef : Nat → PVal
  deriving Repr

/-- Heap of dict objects.  `nextA` is the allocation watermark: every live
address is below it. -/
structure Heap where
  cells : List (Nat × List (String × PVal))
  nextA : Nat
  deriving Repr

def Heap.read (h : Heap) (a : Nat) : Option (List (String × PVal)) :=
  assocGet h.cells a

def Heap.write (h : Heap) (a : Nat) (o : List (String × PVal)) : Heap :=
  { h with cells := assocSet h.cells a o }

def Heap.alloc (h : Heap) (o : List (String × PVal)) : Heap × Nat :=
  ({ cells := h.cells ++ [(h.nextA, o)], nextA := h.nextA + 1 }, h.nextA)

/-- `v` is an in-bounds value: any dict reference it holds is below `b`. -/
def PVal.refLt (b : Nat) : PVal → Bool
  | .atom _ => true
  | .dictRef a => decide (a < b)

/-- `v` holds no dict reference below `b`. -/
def PVal.refGe (b : Nat) : PVal → Bool
  | .atom _ => true
  | .dictRef a => decide (b ≤ a)

/-- `v` is a dict reference to address `A`. -/
def PVal.refsAddr (A : Nat) : PVal → Bool
  | .atom _ => false
  | .dictRef a => decide (a = A)

/-- Well-formed heap: all cell addresses, and all dict references stored in
cells, are below the watermark. -/
def Heap.WF (h : Heap) : Prop :=
  ∀ p ∈ h.cells, p.1 < h.nextA ∧ ∀ q ∈ p.2, PVal.refLt h.nextA q.2 = true

/-- No cell of `h` stores a dict reference to address `A`. -/
def Unreferenced (h : Heap) (A : Nat) : Prop :=
  ∀ p ∈ h.cells, ∀ q ∈ p.2, PVal.refsAddr A q.2 = false

/-- `h2` agrees with `h` on every address below `n`. -/
def heapAgreesBelow (n : Nat) (h h2 : Heap) : Prop :=
  ∀ a : Nat, a < n → h2.read a = h.read a

/-- `copy.deepcopy` restricted to the dict spine, iterating a dict's items:
dict cells are copied into fresh cells depth-first, non-dict payloads are
kept as-is (the callers never mutate them).  Fuel (one unit per processed
item or copied cell) only makes the recursion structural; `none` is fuel
exhaustion (a cyclic or dangling structure) or a dangling reference. -/
def deepcopyEntriesF : Nat → Heap → List (String × PVal) →
    Option (Heap × List (String × PVal))
  | 0, _, _ => none
  | _ + 1, h, [] => some (h, [])
  | fuel + 1, h, (k, v) :: rest =>
    match v with
    | .atom j =>
      match deepcopyEntriesF fuel h rest with
      | none => none
      | some (h1, r) => some (h1, (k, .atom j) :: r)
    | .dictRef a =>
      match h.read a with
      | none => none
      | some entries =>
        match deepcopyEntriesF fuel h entries with
        | none => none
        | some (h1, copied) =>
          let al := h1.alloc copied
          match deepcopyEntriesF fuel al.1 rest with
          | none => none
          | some (h2, r) => some (h2, (k, .dictRef al.2) :: r)

/-- `copy.deepcopy` of a single value: copy the referenced dict cell (and,
recursively, its dict values) into fresh cells. -/
def deepcopyVal (fuel : Nat) (h : Heap) (v : PVal) : Option (Heap × PVal) :=
  match v with
  | .atom j => some (h, .atom j)
  | .dictRef a =>
    match h.read a with
    | none => none
    | some entries =>
      match deepcopyEntriesF fuel h entries with
      | none => none
      | some (h1, copied) =>
        let al := h1.alloc copied
        some (al.1, .dictRef al.2)

/-- The two phases of a `recursive_update` activation: `top` is a call
`recursive_update(original, update_addr, in_place)`, `items` the update-items
loop over the current `out` with the remaining snapshot of
`update.items()`. -/
inductive RUTask where
  | top (original : PVal) (upd : Nat) (inPlace : Bool)
  | items (out : PVal) (pending : List (String × PVal))

/-- Heap model of `utils.recursive_update` (`utils.py:380-399`), faithful to
Python reference semantics:

  out = original if in_place else copy.deepcopy(original)
  for key, value in update.items():
      if isinstance(value, dict):
          out[key] = recursive_update(out.get(key, {}), value)
      else:
          out[key] = value
  return out

The inner recursive call always uses the default `in_place=False`.
`out.get` on a non-dict `out` raises `AttributeError`, `out[key] = ...` on a
non-dict raises `TypeError`; both are `.error ()`.  The items of `update`
are captured when the loop starts; with `in_place=False` the loop only
mutates fresh copies, so `update` is never mutated and the snapshot is
faithful.  `none` is fuel exhaustion or a dangling reference. -/
def recursive_update_run : Nat → Heap → RUTask →
    Option (Except Unit (Heap × PVal))
  | 0, _, _ => none
  | fuel + 1, h, .top original upd inPlace =>
    let prep : Option (Heap × PVal) :=
      if inPlace then some (h, original) else deepcopyVal (fuel + 1) h original
    match prep with
    | none => none
    | some (h1, out) =>
      match h1.read upd with
      | none => none
      | some items => recursive_update_run fuel h1 (.items out items)
  | _ + 1, h, .items out [] => some (.ok (h, out))
  | fuel + 1, h, .items out ((k, v) :: rest) =>
    match v with
    | .dictRef a =>
      match out with
      | .dictRef oNat =>
        match h.read oNat with
        | none => none
        | some oEntries =>
          let cur : Heap × PVal :=
            match assocGet oEntries k with
            | some c => (h, c)
            | none =>
              let al := h.alloc []
              (al.1, .dictRef al.2)
          match recursive_update_run fuel cur.1 (.top cur.2 a false) with
          | none => none
          | some (.error e) => some (.error e)
          | some (.ok (h2, r)) =>
            match h2.read oNat with
            | none => none
            | some oE2 =>
              recursive_update_run fuel (h2.write oNat (assocSet oE2 k r))
                (.items (.dictRef oNat) rest)
      | .atom _ => some (.error ())
    | .atom _ =>
      match out with
      | .dictRef oNat =>
        match h.read oNat with
        | none => none
        | some oE =>
          recursive_update_run fuel (h.write oNat (assocSet oE k v))
            (.items (.dictRef oNat) rest)
      | .atom _ => some (.error ())

/-- `utils.recursive_update(original, update, in_place)` on the heap. -/
def recursive_update_heap (fuel : Nat) (h : Heap) (original : PVal)
    (upd : Nat) (inPlace : Bool) : Option (Except Unit (Heap × PVal)) :=
  recursive_update_run fuel h (.top original upd inPlace)

def JVal.isObj : JVal → Bool
  | .obj _ => true
  | _ => false

/-- A heap value represents a JSON tree: an atom carries the tree itself
(atoms are never dicts), and a dict reference points to a live cell whose
entries represent the object's entries key-for-key. -/
inductive ValMatches (h : Heap) : PVal → JVal → Prop where
  | atom (j : JVal) (hno : JVal.isObj j = false) : ValMatches h (.atom j) j
  | dict (a : Nat) (o : List (String × PVal)) (es : List (String × JVal))
      (hread : h.read a = some o)
      (hkeys : o.map Prod.fst = es.map Prod.fst)
      (hvals : ∀ pq ∈ o.zip es, ValMatches h pq.1.2 pq.2.2) :
      ValMatches h (.dictRef a) (.obj es)

/-- Cell entries represent object entries, key-for-key. -/
def EntriesMatch (h : Heap) (o : List (String × PVal))
    (es : List (String × JVal)) : Prop :=
  o.map Prod.fst = es.map Prod.fst ∧ ∀ pq ∈ o.zip es, ValMatches h pq.1.2 pq.2.2

/-- Loop invariant of the `items` phase relating the heap `out` to the pure
`out`: an atom matches directly; a dict `out` lives at or above the frame
boundary `m`, is referenced from no cell, and its entries represent the
pure object's entries. -/
def MatchOut (h : Heap) (m : Nat) (out : PVal) (jOut : JVal) : Prop :=
  match out with
  | .atom _ => ValMatches h out jOut
  | .dictRef oNat =>
      m ≤ oNat ∧ oNat < h.nextA ∧ Unreferenced h oNat ∧
      ∃ oE jOE, h.read oNat = some oE ∧ jOut = .obj jOE ∧ EntriesMatch h oE jOE

/-! ## Concrete inputs used by the claim witnesses and counterexamples -/

/-- Monitor-style operations (`time.sleep`, `utils.wait_on_gcs_blob`): the
operations `ordering.subscriber_monitor` would perform. -/
def isMonitorAction : GcsAction → Bool
  | .sleep _ => true
  | .waitOnBlob _ _ => true
  | _ => false

/-- Parent config lookups: `a/b/_config/load.json` (nearest to the marker)
sets `fieldDelimiter` to `|`, `a/_config/load.json` (farther) sets it to a
tab. -/
def c7lookup : String → Option JVal := fun k =>
  if k = "a/b/_config/load.json" then some (.obj [("fieldDelimiter", .str "|")])
  else if k = "a/_config/load.json" then some (.obj [("fieldDelimiter", .str "\t")])
  else none

def subEnvW : SubEnv :=
  { jobPrefixV := DEFAULT_JOB_PREFIX, tableP := "ds1/t1",
    jobIdFor := fun _ => "gcf-ingest-next" }

def subStW : SubState :=
  { store := [("ds1/t1/_bqlock", "gcf-ingest-abc"),
              ("ds1/t1/_backlog/batch01/_SUCCESS", ""),
              ("ds1/t1/batch01/_SUCCESS", "")],
    jobs := [("gcf-ingest-abc", .doneErr)],
    dispatched := [], lastJobDone := false }

def destW : DestMatch :=
  { dataset := "ds1".toList, table := "t1".toList, partition := none,
    yyyy := none, mm := none, dd := none, hh := none,
    batch := some ("batch01".toList) }

/-- The destination match of `ds/t/2020/_SUCCESS`: only `yyyy` of the four
date components participates. -/
def destPartialDate : DestMatch :=
  { dataset := "ds".toList, table := "t".toList, partition := none,
    yyyy := some ("2020".toList), mm := none, dd := none, hh := none,
    batch := none }

def mutatedModuleState : ModuleState :=
  { actionFilenames := [some "_SUCCESS", some "_BACKFILL"],
    defaultJobLabels := [("component", "event-based-gcs-ingest"),
                         ("cloud-function-name", "fn")] }

def labelLeakModuleState : ModuleState :=
  { actionFilenames := [some "_SUCCESS", some "_BACKFILL", none],
    defaultJobLabels := [("component", "event-based-gcs-ingest"),
                         ("cloud-function-name", "fn"),
                         ("batch-id", "batch000")] }

/-- Heap with `original = {"a": 1}` at address `0`,
`update = {"a": {"b": 2}}` at address `1` (its nested dict at `2`). -/
def c10Heap : Heap :=
  { cells := [(0, [("a", .atom (.num 1))]),
              (1, [("a", .dictRef 2)]),
              (2, [("b", .atom (.num 2))])],
    nextA := 3 }

/-- Heap with `original = {"a": "x", "n": {"b": 1}}` at address `0` (nested
dict at `1`) and `update = {"n": {"b": 3}, "k": 2}` at address `2` (nested
dict at `3`). -/
def c10HeapOk : Heap :=
  { cells := [(0, [("a", .atom (.str "x")), ("n", .dictRef 1)]),
              (1, [("b", .atom (.num 1))]),
              (2, [("n", .dictRef 3), ("k", .atom (.num 2))]),
              (3, [("b", .atom (.num 3))])],
    nextA := 4 }

/-- The JSON tree `{"a": "x", "n": {"b": 1}}` held at `c10HeapOk` address 0. -/
def c10jO : JVal := .obj [("a", .str "x"), ("n", .obj [("b", .num 1)])]

/-- The JSON tree `{"n": {"b": 3}, "k": 2}` held at `c10HeapOk` address 2. -/
def c10jU : JVal := .obj [("n", .obj [("b", .num 3)]), ("k", .num 2)]

/-- The heap after `recursive_update(original, update)` on `c10HeapOk`:
cells 0-3 are untouched; 4 is the deep copy of the nested original dict, 5
the copied root (rebound to fresh cell 6), 6 the updated copy of the nested
dict. -/
def c10ResHeap : Heap :=
  { cells := [(0, [("a", .atom (.str "x")), ("n", .dictRef 1)]),
              (1, [("b", .atom (.num 1))]),
              (2, [("n", .dictRef 3), ("k", .atom (.num 2))]),
              (3, [("b", .atom (.num 3))]),
              (4, [("b", .atom (.num 1))]),
              (5, [("a", .atom (.str "x")), ("n", .dictRef 6),
                   ("k", .atom (.num 2))]),
              (6, [("b", .atom (.num 3))])],
    nextA := 7 }

/-! # Theorems -/

/-! ### C1 — idempotent claim of a notification -/

/-- C1 (counterexample): the claim key computed by
`handle_duplicate_notification` for the marker `ds/_SUCCESS_old/_SUCCESS`
(creation timestamp `123`) is not
`<parent>/_claimed_<basename>_created_at_<unix_ts>`: Python `str.replace`
also rewrites the occurrence of the basename inside the parent directory
name. -/
theorem claimKeyOf_not_parent_form :
    claimKeyOf ("ds/_SUCCESS_old/_SUCCESS".toList) ("123".toList) =
      ("ds/_claimed__SUCCESS_created_at_123_old/_claimed__SUCCESS_created_at_123".toList) ∧
    claimKeyOf ("ds/_SUCCESS_old/_SUCCESS".toList) ("123".toList) ≠
      ("ds/_SUCCESS_old/_claimed__SUCCESS_created_at_123".toList) := by
  exact ⟨by decide, by decide⟩

/-- C1 (amended): for any two invocations observing the same
`(marker path, time_created)` pair, both compute the same claim key (the
marker path with every occurrence of the basename replaced by
`_claimed_<basename>_created_at_<unix_ts>`, which equals
`<parent>/_claimed_<basename>_created_at_<unix_ts>` whenever the basename
occurs exactly once in the path); when that key does not yet exist, the
first invocation's `if_generation_match=0` create succeeds and the second
raises `DuplicateNotificationException`, and in general the outcome of an
invocation is decided solely by the existence of that claim key. -/
theorem handle_duplicate_notification_exactly_one (store : List (List Char))
    (name ts : List Char) (h : claimKeyOf name ts ∉ store) :
    handle_duplicate_notification store name ts =
      .ok (claimKeyOf name ts :: store) ∧
    handle_duplicate_notification (claimKeyOf name ts :: store) name ts =
      .error () ∧
    (∀ st : List (List Char), claimKeyOf name ts ∈ st →
      handle_duplicate_notification st name ts = .error ()) ∧
    (∀ st : List (List Char), claimKeyOf name ts ∉ st →
      handle_duplicate_notification st name ts = .ok (claimKeyOf name ts :: st)) := by
  refine ⟨?_, ?_, ?_, ?_⟩
  · simp [handle_duplicate_notification, create_object_if_absent, h]
  · simp [handle_duplicate_notification, create_object_if_absent]
  · intro st hst
    simp [handle_duplicate_notification, create_object_if_absent, hst]
  · intro st hst
    simp [handle_duplicate_notification, create_object_if_absent, hst]

/-- C1 witness: concrete instantiation of the amended claim. -/
theorem handle_duplicate_notification_exactly_one_witness :
    claimKeyOf ("ds1/t1/_SUCCESS".toList) ("1600000000.0".toList) ∉
      ([] : List (List Char)) ∧
    handle_duplicate_notification [] ("ds1/t1/_SUCCESS".toList)
      ("1600000000.0".toList) =
      .ok [claimKeyOf ("ds1/t1/_SUCCESS".toList) ("1600000000.0".toList)] ∧
    handle_duplicate_notification
      [claimKeyOf ("ds1/t1/_SUCCESS".toList) ("1600000000.0".toList)]
      ("ds1/t1/_SUCCESS".toList) ("1600000000.0".toList) = .error () := by
  refine ⟨by decide, ?_, ?_⟩
  · exact (handle_duplicate_notification_exactly_one [] _ _ (by decide)).1
  · exact (handle_duplicate_notification_exactly_one [] _ _ (by decide)).2.1

/-! ### C2 — batch shape -/

/-- C2 (code bug): with `MAX_BATCH_BYTES = 10` and a single qualifying
11-byte object, `get_batches_for_prefix` emits an empty first batch: the
close-batch branch appends the current (still empty) batch before starting
a new one, because the guard is
`cumulative_bytes <= max or len(batch) > MAX_SOURCE_URIS_PER_LOAD` instead
of the intended conjunction. -/
theorem get_batches_for_prefix_emits_empty_batch :
    get_batches_for_prefix "b" "p" "_config/" "_SUCCESS" [("p/big", 11)] 10 =
      .ok [[], ["gs://b/p/big"]] ∧
    ([] : List String) ∈ [([] : List String), ["gs://b/p/big"]] := by
  exact ⟨rfl, by simp⟩

/-! ### C3 — batch listing exclusions -/

/-- C3 (code bug): a non-empty object under the `_config/` subprefix is
included in the emitted batches.  The filter
`(name not in {root, marker}) or name.startswith(config)` admits every name
other than the root entry and the marker, so `_config/` objects are never
excluded (the comment above the loop says they should be). -/
theorem get_batches_for_prefix_includes_config_object :
    get_batches_for_prefix "b" "p" "_config/" "_SUCCESS"
      [("p/", 0), ("p/_SUCCESS", 0), ("p/_config/load.json", 5), ("p/d1", 3)]
      DEFAULT_MAX_BATCH_BYTES =
      .ok [["gs://b/p/_config/load.json", "gs://b/p/d1"]] ∧
    "gs://b/p/_config/load.json" ∈ ["gs://b/p/_config/load.json", "gs://b/p/d1"] := by
  exact ⟨rfl, by simp⟩

/-! ### C4 — partition derivation -/

/-- C4 (code bug): `ds/t/2020/_SUCCESS` matches the destination regex with
only `yyyy` of the four date components captured, and the partition
derivation then raises `TypeError` (`"".join` over `None` members) instead
of producing `$2020` and a table reference. -/
theorem gcs_path_partial_date_raises :
    destinationMatch ("ds/t/2020/_SUCCESS".toList) = some destPartialDate ∧
    destPartialDate.yyyy = some ("2020".toList) ∧
    destPartialDate.partition = none ∧
    derivePartition destPartialDate = .error () := by
  exact ⟨by rfl, rfl, rfl, rfl⟩

/-! ### C5 — publisher race monitor -/

/-- C5 (code bug): for a success marker under an ordered table prefix,
`backlog_publisher` performs exactly the backlog upload and the
`start_backfill_subscriber_if_not_running` conditional create, and returns;
its trace contains no sleep and no wait on the `_BACKFILL` blob — the race
monitor (`subscriber_monitor`) is never entered. -/
theorem backlog_publisher_returns_without_monitor :
    backlog_publisher ⟨none⟩ [] ("ds1/t1/batch01/_SUCCESS".toList) =
      some ([("ds1/t1/_BACKFILL".toList),
             ("ds1/t1/_backlog/batch01/_SUCCESS".toList)],
            [GcsAction.upload ("ds1/t1/_backlog/batch01/_SUCCESS".toList),
             GcsAction.uploadIfAbsent ("ds1/t1/_BACKFILL".toList)]) ∧
    ([GcsAction.upload ("ds1/t1/_backlog/batch01/_SUCCESS".toList),
      GcsAction.uploadIfAbsent ("ds1/t1/_BACKFILL".toList)]).all
      (fun a => !(isMonitorAction a)) = true := by
  exact ⟨by rfl, by rfl⟩

/-! ### C6 — subscriber aborts on job failure -/

/-- C6: when `_bqlock` records a job id with the configured job prefix and
polling that id ends in terminal failure or `NotFound`, the subscriber loop
raises `JobFailure` immediately: the final state is exactly the state at
entry to the iteration — the lock object is neither deleted nor
overwritten, no backlog item is removed, and nothing further is
dispatched. -/
theorem backlog_subscriber_poll_failure_aborts (env : SubEnv) (st : SubState)
    (fuel : Nat) (c : String)
    (hf : 0 < fuel)
    (hl : st.store.lookup (env.tableP ++ "/_bqlock") = some c)
    (hne : ¬ c = "")
    (hp : strStartsWith c env.jobPrefixV = true)
    (hj : wait_on_bq_job_id st.jobs c = .doneErr ∨
          wait_on_bq_job_id st.jobs c = .notFound) :
    backlog_subscriber_loop env fuel st = .failed .jobFailure st := by
  obtain ⟨n, rfl⟩ : ∃ n, fuel = n + 1 := ⟨fuel - 1, by omega⟩
  have hiter : backlog_subscriber_iter env st = .raiseE .jobFailure st := by
    rcases hj with hj | hj <;>
      simp [backlog_subscriber_iter, hl, hne, hp, hj]
  simp [backlog_subscriber_loop, hiter]

/-- C6 witness: a store whose lock records `gcf-ingest-abc`, a job table in
which that id failed; the loop aborts with `JobFailure` leaving the state
untouched. -/
theorem backlog_subscriber_poll_failure_aborts_witness :
    subStW.store.lookup ("ds1/t1" ++ "/_bqlock") = some "gcf-ingest-abc" ∧
    wait_on_bq_job_id subStW.jobs "gcf-ingest-abc" = .doneErr ∧
    backlog_subscriber_loop subEnvW 3 subStW = .failed .jobFailure subStW := by
  refine ⟨by rfl, by rfl, ?_⟩
  exact backlog_subscriber_poll_failure_aborts subEnvW subStW 3 "gcf-ingest-abc"
    (by decide) (by rfl) (by decide) (by decide) (Or.inl (by rfl))

/-! ### C7 — load config merge precedence -/

/-- C7 (code bug): for object path `a/b/c/` with `load.json` fragments at
`a/b/_config/` (nearest, `fieldDelimiter = "|"`) and `a/_config/` (farther,
`fieldDelimiter = "\t"`), the merged config carries the farther value: the
config deque is applied base-first, nearest-first, so the farthest config
is applied last and wins, contradicting nearest-wins. -/
theorem construct_load_job_config_farthest_wins :
    construct_load_job_config 64 "fn" c7lookup ["a", "b", "c"] =
      some (.ok (.obj [("sourceFormat", .str "CSV"),
                 ("fieldDelimiter", .str "\t"),
                 ("writeDisposition", .str "WRITE_APPEND"),
                 ("labels", .obj [("component", .str "event-based-gcs-ingest"),
                                  ("cloud-function-name", .str "fn")])])) ∧
    c7lookup "a/b/_config/load.json" = some (.obj [("fieldDelimiter", .str "|")]) ∧
    configQueryPaths ["a", "b", "c"] =
      ["a/b/_config/load.json", "a/_config/load.json", "_config/load.json"] := by
  exact ⟨rfl, rfl, rfl⟩

/-! ### C8 — module-level state across invocations -/

/-- C8 (code bug): a first no-op invocation (basename `data.csv`, with
`START_BACKFILL_FILENAME` unset) mutates the module-level
`constants.ACTION_FILENAMES` by removing `None`; a second identical
invocation then raises `KeyError`; and `gcs_path_to_table_ref_and_batch`
on a batched path writes `batch-id` into the module-level
`constants.DEFAULT_JOB_LABELS`.  `main` is therefore not independent of
previously processed notifications. -/
theorem main_mutates_module_state :
    main_action_check none (initialModuleState none "fn") "data.csv" =
      .ok (mutatedModuleState, true) ∧
    mutatedModuleState ≠ initialModuleState none "fn" ∧
    main_action_check none mutatedModuleState "data.csv" = .error () ∧
    gcs_path_job_labels (initialModuleState none "fn") (some "batch000") =
      labelLeakModuleState ∧
    labelLeakModuleState ≠ initialModuleState none "fn" := by
  exact ⟨rfl, by decide, rfl, rfl, by decide⟩

/-! ### C9 — table-prefix round trip -/

/-- If every element of `l1` satisfies `p` and `c` does not, `takeWhile`
and `dropWhile` split `l1 ++ c :: l2` at `c`. -/
theorem takeWhile_append_first {p : Char → Bool} :
    ∀ (l1 : List Char) (c : Char) (l2 : List Char),
      (∀ x ∈ l1, p x = true) → p c = false →
      (l1 ++ c :: l2).takeWhile p = l1 ∧ (l1 ++ c :: l2).dropWhile p = c :: l2
  | [], c, l2, _, hc => by
    simp [List.takeWhile_cons, List.dropWhile_cons, hc]
  | x :: xs, c, l2, h1, hc => by
    have hx : p x = true := h1 x (by simp)
    have ih := takeWhile_append_first xs c l2 (fun y hy => h1 y (by simp [hy])) hc
    simp [List.takeWhile_cons, List.dropWhile_cons, hx, ih.1, ih.2]

/-- Inversion of a successful `destinationMatch`: the dataset and table
captures are the maximal class-character runs, both non-empty, and the
remainder after the dataset starts with `/`. -/
theorem destinationMatch_inv (s : List Char) (m : DestMatch)
    (h : destinationMatch s = some m) :
    ∃ r2, s.dropWhile isDatasetChar = '/' :: r2 ∧
      m.dataset = s.takeWhile isDatasetChar ∧
      m.table = r2.takeWhile isTableChar ∧
      m.dataset ≠ [] ∧ m.table ≠ [] := by
  simp only [destinationMatch] at h
  split at h
  next hcond =>
    obtain ⟨hds, hhead⟩ := hcond
    cases hr1 : s.dropWhile isDatasetChar with
    | nil => rw [hr1] at hhead; simp at hhead
    | cons a t =>
      rw [hr1] at hhead
      have ha : a = '/' := by simpa using hhead
      subst ha
      rw [hr1] at h
      simp only [List.tail_cons] at h
      split at h
      next htab =>
        split at h
        next tl hpt =>
          have hm : ({ dataset := s.takeWhile isDatasetChar,
                       table := t.takeWhile isTableChar,
                       partition := tl.partition, yyyy := tl.yyyy,
                       mm := tl.mm, dd := tl.dd, hh := tl.hh,
                       batch := tl.batch } : DestMatch) = m :=
            Option.some.inj h
          refine ⟨t, rfl, ?_, ?_, ?_, ?_⟩
          · rw [← hm]
          · rw [← hm]
          · rw [← hm]; exact hds
          · rw [← hm]; exact htab
        next => exact absurd h (by simp)
      next => exact absurd h (by simp)
  next => exact absurd h (by simp)

/-- C9: for every object id matching the destination regex,
`get_table_prefix` returns the slice up to the end of the table capture,
that slice is a prefix of the object id, and re-parsing
`get_table_prefix(object_id) ++ "/x"` yields the same table capture. -/
theorem get_table_prefix_roundtrip (s : List Char) (m : DestMatch)
    (h : destinationMatch s = some m) :
    getTablePrefix s = some (m.dataset ++ '/' :: m.table) ∧
    (m.dataset ++ '/' :: m.table) <+: s ∧
    (destinationMatch (m.dataset ++ '/' :: (m.table ++ ('/' :: 'x' :: [])))).map
      DestMatch.table = some m.table := by
  obtain ⟨r2, hdrop, hds, htab, hdne, htne⟩ := destinationMatch_inv s m h
  have hs : s = m.dataset ++ '/' :: r2 := by
    conv_lhs => rw [← List.takeWhile_append_dropWhile isDatasetChar s]
    rw [← hds, hdrop]
  have hr2 : r2 = m.table ++ r2.dropWhile isTableChar := by
    conv_lhs => rw [← List.takeWhile_append_dropWhile isTableChar r2]
    rw [← htab]
  have htake : s.take (m.dataset.length + 1 + m.table.length) =
      m.dataset ++ '/' :: m.table := by
    rw [hs]
    rw [show m.dataset.length + 1 + m.table.length =
      m.dataset.length + (m.table.length + 1) from by omega]
    rw [List.take_append]
    rw [List.take_succ_cons]
    congr 2
    rw [hr2, List.take_left]
  have hmemds : ∀ x ∈ m.dataset, isDatasetChar x = true := by
    intro x hx; rw [hds] at hx; exact List.mem_takeWhile_imp hx
  have hmemtab : ∀ x ∈ m.table, isTableChar x = true := by
    intro x hx; rw [htab] at hx; exact List.mem_takeWhile_imp hx
  have h1 := takeWhile_append_first m.dataset '/' (m.table ++ ['/', 'x'])
    hmemds (by decide)
  have h2 := takeWhile_append_first m.table '/' ['x'] hmemtab (by decide)
  have hpt : parseTail ['/', 'x'] =
      some { partition := none, yyyy := none, mm := none, dd := none,
             hh := none, batch := none } := by rfl
  refine ⟨?_, ?_, ?_⟩
  · simp [getTablePrefix, h, htake]
  · rw [← htake]; exact List.take_prefix _ s
  · simp only [destinationMatch, h1.1, h1.2, List.head?_cons, List.tail_cons,
      h2.1, h2.2]
    rw [if_pos ⟨hdne, trivial⟩]
    rw [if_pos htne]
    rw [hpt]
    rfl

/-- C9 witness: concrete round trip for `ds1/t1/batch01/_SUCCESS`. -/
theorem get_table_prefix_roundtrip_witness :
    destinationMatch ("ds1/t1/batch01/_SUCCESS".toList) = some destW ∧
    getTablePrefix ("ds1/t1/batch01/_SUCCESS".toList) =
      some (destW.dataset ++ '/' :: destW.table) := by
  have h : destinationMatch ("ds1/t1/batch01/_SUCCESS".toList) = some destW := by rfl
  exact ⟨h, (get_table_prefix_roundtrip _ _ h).1⟩

/-! ### C10 — `recursive_update`: frame and functional correctness

Supporting lemmas about the association-list primitives and the heap. -/

theorem assocGet_mem {κ α : Type} [DecidableEq κ] :
    ∀ {l : List (κ × α)} {k : κ} {v : α}, assocGet l k = some v → (k, v) ∈ l
  | [], _, _, h => by simp [assocGet] at h
  | (k1, v1) :: t, k, v, h => by
    rw [assocGet] at h
    split at h
    next heq => subst heq; cases h; exact List.mem_cons_self _ _
    next hne => exact List.mem_cons_of_mem _ (assocGet_mem h)

theorem assocGet_assocSet_self {κ α : Type} [DecidableEq κ] :
    ∀ (l : List (κ × α)) (k : κ) (v : α), assocGet (assocSet l k v) k = some v
  | [], k, v => by simp [assocSet, assocGet]
  | (k1, v1) :: t, k, v => by
    rw [assocSet]
    split
    next heq => subst heq; simp [assocGet]
    next hne => rw [assocGet, if_neg hne]; exact assocGet_assocSet_self t k v

theorem assocGet_assocSet_ne {κ α : Type} [DecidableEq κ] :
    ∀ (l : List (κ × α)) (k k2 : κ) (v : α), k2 ≠ k →
      assocGet (assocSet l k v) k2 = assocGet l k2
  | [], k, k2, v, hne => by simp [assocSet, assocGet, Ne.symm hne]
  | (k1, v1) :: t, k, k2, v, hne => by
    rw [assocSet]
    split
    next heq =>
      subst heq
      rw [assocGet, assocGet, if_neg (Ne.symm hne), if_neg (Ne.symm hne)]
    next h1 =>
      rw [assocGet, assocGet]
      by_cases h12 : k1 = k2
      · rw [if_pos h12, if_pos h12]
      · rw [if_neg h12, if_neg h12]
        exact assocGet_assocSet_ne t k k2 v hne

theorem mem_assocSet {κ α : Type} [DecidableEq κ] :
    ∀ {l : List (κ × α)} {k : κ} {v : α} {q : κ × α}, q ∈ assocSet l k v →
      q = (k, v) ∨ q ∈ l
  | [], k, v, q, h => by
    rw [assocSet] at h
    exact Or.inl (List.mem_singleton.mp h)
  | (k1, v1) :: t, k, v, q, h => by
    rw [assocSet] at h
    split at h
    next heq =>
      subst heq
      rcases List.mem_cons.mp h with h | h
      · exact Or.inl h
      · exact Or.inr (List.mem_cons_of_mem _ h)
    next hne =>
      rcases List.mem_cons.mp h with h | h
      · exact Or.inr (h ▸ List.mem_cons_self _ _)
      · rcases mem_assocSet h with h | h
        · exact Or.inl h
        · exact Or.inr (List.mem_cons_of_mem _ h)

theorem assocGet_append_of_some {κ α : Type} [DecidableEq κ] :
    ∀ {l1 : List (κ × α)} (l2 : List (κ × α)) {k : κ} {v : α},
      assocGet l1 k = some v → assocGet (l1 ++ l2) k = some v
  | [], _, _, _, h => by simp [assocGet] at h
  | (k1, v1) :: t, l2, k, v, h => by
    rw [assocGet] at h
    rw [List.cons_append, assocGet]
    split at h
    next heq => rw [if_pos heq]; exact h
    next hne => rw [if_neg hne]; exact assocGet_append_of_some l2 h

theorem assocGet_append_of_none {κ α : Type} [DecidableEq κ] :
    ∀ {l1 : List (κ × α)} (l2 : List (κ × α)) {k : κ},
      assocGet l1 k = none → assocGet (l1 ++ l2) k = assocGet l2 k
  | [], _, _, _ => by simp [assocGet]
  | (k1, v1) :: t, l2, k, h => by
    rw [assocGet] at h
    rw [List.cons_append, assocGet]
    split at h
    next heq => exact absurd h (by simp)
    next hne => rw [if_neg hne]; exact assocGet_append_of_none l2 h

theorem Heap.read_write_self (h : Heap) (A : Nat) (o : List (String × PVal)) :
    (h.write A o).read A = some o :=
  assocGet_assocSet_self h.cells A o

theorem Heap.read_write_ne (h : Heap) (A a : Nat) (o : List (String × PVal))
    (hne : a ≠ A) : (h.write A o).read a = h.read a :=
  assocGet_assocSet_ne h.cells A a o hne

theorem Heap.read_alloc_ne (h : Heap) (a : Nat) (o : List (String × PVal))
    (hne : a ≠ h.nextA) : (h.alloc o).1.read a = h.read a := by
  simp only [Heap.alloc, Heap.read]
  cases hc : assocGet h.cells a with
  | some v => rw [assocGet_append_of_some _ hc]
  | none => rw [assocGet_append_of_none _ hc, assocGet, if_neg (Ne.symm hne), assocGet]

theorem Heap.read_lt_of_WF {h : Heap} {a : Nat} {o : List (String × PVal)}
    (hwf : Heap.WF h) (hr : h.read a = some o) : a < h.nextA :=
  (hwf _ (assocGet_mem hr)).1

theorem Heap.read_refLt_of_WF {h : Heap} {a : Nat} {o : List (String × PVal)}
    (hwf : Heap.WF h) (hr : h.read a = some o) :
    ∀ q ∈ o, PVal.refLt h.nextA q.2 = true :=
  (hwf _ (assocGet_mem hr)).2

theorem Heap.read_alloc_self (h : Heap) (o : List (String × PVal))
    (hwf : Heap.WF h) : (h.alloc o).1.read h.nextA = some o := by
  have hc : assocGet h.cells h.nextA = none := by
    cases hc : assocGet h.cells h.nextA with
    | none => rfl
    | some v =>
      have hlt := (hwf _ (assocGet_mem hc)).1
      exact absurd hlt (lt_irrefl _)
  simp only [Heap.alloc, Heap.read]
  rw [assocGet_append_of_none _ hc, assocGet, if_pos rfl]

theorem PVal.refLt_mono {b b2 : Nat} {v : PVal} (h : PVal.refLt b v = true)
    (hle : b ≤ b2) : PVal.refLt b2 v = true := by
  cases v with
  | atom j => rfl
  | dictRef a =>
    simp only [PVal.refLt, decide_eq_true_eq] at h ⊢
    omega

theorem PVal.refGe_mono {b b2 : Nat} {v : PVal} (h : PVal.refGe b2 v = true)
    (hle : b ≤ b2) : PVal.refGe b v = true := by
  cases v with
  | atom j => rfl
  | dictRef a =>
    simp only [PVal.refGe, decide_eq_true_eq] at h ⊢
    omega

theorem PVal.refsAddr_false_of_refLt {b A : Nat} {v : PVal}
    (h : PVal.refLt b v = true) (hle : b ≤ A) : PVal.refsAddr A v = false := by
  cases v with
  | atom j => rfl
  | dictRef a =>
    simp only [PVal.refLt, decide_eq_true_eq] at h
    simp only [PVal.refsAddr, decide_eq_false_iff_not]
    omega

theorem PVal.refsAddr_false_of_refGe {b A : Nat} {v : PVal}
    (h : PVal.refGe b v = true) (hlt : A < b) : PVal.refsAddr A v = false := by
  cases v with
  | atom j => rfl
  | dictRef a =>
    simp only [PVal.refGe, decide_eq_true_eq] at h
    simp only [PVal.refsAddr, decide_eq_false_iff_not]
    omega

theorem Heap.WF_write {h : Heap} {A : Nat} {o : List (String × PVal)}
    (hwf : Heap.WF h) (hA : A < h.nextA)
    (ho : ∀ q ∈ o, PVal.refLt h.nextA q.2 = true) : Heap.WF (h.write A o) := by
  intro p hp
  simp only [Heap.write] at hp
  rcases mem_assocSet hp with hp | hp
  · subst hp; exact ⟨hA, ho⟩
  · exact hwf p hp

theorem Heap.WF_alloc {h : Heap} {o : List (String × PVal)}
    (hwf : Heap.WF h) (ho : ∀ q ∈ o, PVal.refLt h.nextA q.2 = true) :
    Heap.WF (h.alloc o).1 := by
  intro p hp
  simp only [Heap.alloc] at hp ⊢
  rcases List.mem_append.mp hp with hp | hp
  · obtain ⟨h1, h2⟩ := hwf p hp
    exact ⟨Nat.lt_succ_of_lt h1,
           fun q hq => PVal.refLt_mono (h2 q hq) (Nat.le_succ _)⟩
  · rcases List.mem_singleton.mp hp with rfl
    exact ⟨Nat.lt_succ_self _,
           fun q hq => PVal.refLt_mono (ho q hq) (Nat.le_succ _)⟩

theorem heapAgreesBelow_refl (n : Nat) (h : Heap) : heapAgreesBelow n h h :=
  fun _ _ => rfl

theorem heapAgreesBelow_trans {n : Nat} {h1 h2 h3 : Heap}
    (a : heapAgreesBelow n h1 h2) (b : heapAgreesBelow n h2 h3) :
    heapAgreesBelow n h1 h3 :=
  fun x hx => (b x hx).trans (a x hx)

theorem heapAgreesBelow_mono {n n2 : Nat} {h1 h2 : Heap} (hle : n2 ≤ n)
    (a : heapAgreesBelow n h1 h2) : heapAgreesBelow n2 h1 h2 :=
  fun x hx => a x (lt_of_lt_of_le hx hle)

theorem heapAgreesBelow_write {n : Nat} {h : Heap} {A : Nat}
    {o : List (String × PVal)} (hA : n ≤ A) :
    heapAgreesBelow n h (h.write A o) :=
  fun x hx => Heap.read_write_ne h A x o (by omega)

theorem heapAgreesBelow_alloc {n : Nat} {h : Heap} {o : List (String × PVal)}
    (hn : n ≤ h.nextA) : heapAgreesBelow n h (h.alloc o).1 :=
  fun x hx => Heap.read_alloc_ne h x o (by omega)

theorem Unreferenced_write {h : Heap} {A A2 : Nat} {o : List (String × PVal)}
    (hu : Unreferenced h A) (ho : ∀ q ∈ o, PVal.refsAddr A q.2 = false) :
    Unreferenced (h.write A2 o) A := by
  intro p hp
  simp only [Heap.write] at hp
  rcases mem_assocSet hp with hp | hp
  · subst hp; exact ho
  · exact hu p hp

theorem Unreferenced_alloc {h : Heap} {A : Nat} {o : List (String × PVal)}
    (hu : Unreferenced h A) (ho : ∀ q ∈ o, PVal.refsAddr A q.2 = false) :
    Unreferenced (h.alloc o).1 A := by
  intro p hp
  simp only [Heap.alloc] at hp
  rcases List.mem_append.mp hp with hp | hp
  · exact hu p hp
  · rcases List.mem_singleton.mp hp with rfl
    exact ho

theorem Unreferenced_of_WF_ge {h : Heap} {A : Nat} (hwf : Heap.WF h)
    (hA : h.nextA ≤ A) : Unreferenced h A :=
  fun p hp q hq => PVal.refsAddr_false_of_refLt ((hwf p hp).2 q hq) hA

theorem ValMatches_atom_inv {h : Heap} {av : JVal} {j : JVal}
    (hm : ValMatches h (.atom av) j) : j = av ∧ JVal.isObj j = false := by
  cases hm with
  | atom j hno => exact ⟨rfl, hno⟩

theorem ValMatches_dict_inv {h : Heap} {a : Nat} {j : JVal}
    (hm : ValMatches h (.dictRef a) j) :
    ∃ o es, j = .obj es ∧ h.read a = some o ∧ EntriesMatch h o es := by
  cases hm with
  | dict a o es hread hkeys hvals => exact ⟨o, es, rfl, hread, ⟨hkeys, hvals⟩⟩

theorem ValMatches_dict_intro {h : Heap} {a : Nat} {o : List (String × PVal)}
    {es : List (String × JVal)} (hread : h.read a = some o)
    (hm : EntriesMatch h o es) : ValMatches h (.dictRef a) (.obj es) :=
  .dict a o es hread hm.1 hm.2

theorem ValMatches_refLt {h : Heap} {v : PVal} {j : JVal}
    (hm : ValMatches h v j) (hwf : Heap.WF h) :
    PVal.refLt h.nextA v = true := by
  cases hm with
  | atom j hno => rfl
  | dict a o es hread hkeys hvals =>
    simp only [PVal.refLt, decide_eq_true_eq]
    exact Heap.read_lt_of_WF hwf hread

theorem ValMatches_readExt {h h2 : Heap} {v : PVal} {j : JVal}
    (hm : ValMatches h v j)
    (hr : ∀ a o, h.read a = some o → h2.read a = some o) :
    ValMatches h2 v j := by
  induction hm with
  | atom j hno => exact .atom j hno
  | dict a o es hread hkeys hvals ih =>
    exact .dict a o es (hr a o hread) hkeys ih

theorem ValMatches_of_agreesBelow {h h2 : Heap} {v : PVal} {j : JVal}
    (hm : ValMatches h v j) (hwf : Heap.WF h)
    (ha : heapAgreesBelow h.nextA h h2) : ValMatches h2 v j :=
  ValMatches_readExt hm (fun a o hr => by
    rw [ha a (Heap.read_lt_of_WF hwf hr)]; exact hr)

theorem ValMatches_write_unref {h : Heap} {A : Nat}
    {o2 : List (String × PVal)} {v : PVal} {j : JVal}
    (hm : ValMatches h v j) (hu : Unreferenced h A) :
    PVal.refsAddr A v = false → ValMatches (h.write A o2) v j := by
  induction hm with
  | atom j hno => exact fun _ => .atom j hno
  | dict a o es hread hkeys hvals ih =>
    intro hroot
    have hne : a ≠ A := by
      simpa only [PVal.refsAddr, decide_eq_false_iff_not] using hroot
    refine .dict a o es ?_ hkeys ?_
    · rw [Heap.read_write_ne h A a o2 hne]; exact hread
    · intro pq hpq
      exact ih pq hpq
        (hu (a, o) (assocGet_mem hread) pq.1 (List.of_mem_zip hpq).1)

theorem EntriesMatch_nil (h : Heap) : EntriesMatch h [] [] :=
  ⟨rfl, fun _ hpq => absurd hpq (by simp)⟩

theorem EntriesMatch_cons {h : Heap} {k : String} {v : PVal} {j : JVal}
    {o : List (String × PVal)} {es : List (String × JVal)}
    (h1 : ValMatches h v j) (h2 : EntriesMatch h o es) :
    EntriesMatch h ((k, v) :: o) ((k, j) :: es) := by
  obtain ⟨hkeys, hvals⟩ := h2
  refine ⟨by simp [hkeys], ?_⟩
  intro pq hpq
  rw [List.zip_cons_cons] at hpq
  rcases List.mem_cons.mp hpq with hpq | hpq
  · subst hpq; exact h1
  · exact hvals pq hpq

theorem EntriesMatch_cons_inv {h : Heap} {k : String} {v : PVal}
    {o : List (String × PVal)} {es : List (String × JVal)}
    (hm : EntriesMatch h ((k, v) :: o) es) :
    ∃ j es2, es = (k, j) :: es2 ∧ ValMatches h v j ∧ EntriesMatch h o es2 := by
  obtain ⟨hkeys, hvals⟩ := hm
  cases es with
  | nil => exact absurd hkeys (by simp)
  | cons e es2 =>
    obtain ⟨k2, j⟩ := e
    simp only [List.map_cons, List.cons.injEq] at hkeys
    obtain ⟨hk, hkeys2⟩ := hkeys
    subst hk
    refine ⟨j, es2, rfl, ?_, hkeys2, ?_⟩
    · exact hvals ((k, v), (k, j)) (by rw [List.zip_cons_cons]; simp)
    · intro pq hpq
      exact hvals pq (by rw [List.zip_cons_cons]; exact List.mem_cons_of_mem _ hpq)

theorem EntriesMatch_of_agreesBelow {h h2 : Heap} {o : List (String × PVal)}
    {es : List (String × JVal)} (hm : EntriesMatch h o es) (hwf : Heap.WF h)
    (ha : heapAgreesBelow h.nextA h h2) : EntriesMatch h2 o es :=
  ⟨hm.1, fun pq hpq => ValMatches_of_agreesBelow (hm.2 pq hpq) hwf ha⟩

theorem EntriesMatch_write_unref {h : Heap} {A : Nat}
    {o2 : List (String × PVal)} {o : List (String × PVal)}
    {es : List (String × JVal)} (hm : EntriesMatch h o es)
    (hu : Unreferenced h A)
    (hroots : ∀ q ∈ o, PVal.refsAddr A q.2 = false) :
    EntriesMatch (h.write A o2) o es :=
  ⟨hm.1, fun pq hpq => ValMatches_write_unref (hm.2 pq hpq) hu
    (hroots pq.1 (List.of_mem_zip hpq).1)⟩

theorem EntriesMatch_assocSet {h : Heap} {k : String} {v : PVal} {j : JVal} :
    ∀ {o : List (String × PVal)} {es : List (String × JVal)},
      EntriesMatch h o es → ValMatches h v j →
      EntriesMatch h (assocSet o k v) (assocSet es k j)
  | [], es, hm, hv => by
    cases es with
    | nil => exact EntriesMatch_cons hv (EntriesMatch_nil h)
    | cons e t => exact absurd hm.1 (by simp)
  | (k1, v1) :: o, es, hm, hv => by
    obtain ⟨j1, es2, rfl, hv1, hm2⟩ := EntriesMatch_cons_inv hm
    rw [assocSet, assocSet]
    by_cases hk : k1 = k
    · rw [if_pos hk, if_pos hk]
      exact EntriesMatch_cons hv hm2
    · rw [if_neg hk, if_neg hk]
      exact EntriesMatch_cons hv1 (EntriesMatch_assocSet hm2 hv)

theorem EntriesMatch_lookup {h : Heap} (k : String) :
    ∀ {o : List (String × PVal)} {es : List (String × JVal)},
      EntriesMatch h o es →
      (assocGet o k = none ∧ assocGet es k = none) ∨
      (∃ v j, assocGet o k = some v ∧ assocGet es k = some j ∧
        ValMatches h v j)
  | [], es, hm => by
    cases es with
    | nil => exact Or.inl ⟨rfl, rfl⟩
    | cons e t => exact absurd hm.1 (by simp)
  | (k1, v1) :: o, es, hm => by
    obtain ⟨j1, es2, rfl, hv1, hm2⟩ := EntriesMatch_cons_inv hm
    rw [assocGet, assocGet]
    by_cases hk : k1 = k
    · rw [if_pos hk, if_pos hk]
      exact Or.inr ⟨v1, j1, rfl, rfl, hv1⟩
    · rw [if_neg hk, if_neg hk]
      exact EntriesMatch_lookup k hm2

/-- Everything `deepcopyEntriesF` guarantees: it only allocates (old cells
are untouched, the watermark grows, well-formedness is kept), the copied
list has the original keys, its values are in bounds and its dict
references are all fresh, unreferenced addresses stay unreferenced, and the
copy represents the same JSON entries as the input. -/
theorem deepcopyEntriesF_spec :
    ∀ (fuel : Nat) (h : Heap) (l : List (String × PVal))
      (h1 : Heap) (c : List (String × PVal)),
      deepcopyEntriesF fuel h l = some (h1, c) →
      Heap.WF h →
      (∀ q ∈ l, PVal.refLt h.nextA q.2 = true) →
      heapAgreesBelow h.nextA h h1 ∧ h.nextA ≤ h1.nextA ∧ Heap.WF h1 ∧
      c.map Prod.fst = l.map Prod.fst ∧
      (∀ q ∈ c, PVal.refLt h1.nextA q.2 = true) ∧
      (∀ q ∈ c, PVal.refGe h.nextA q.2 = true) ∧
      (∀ A, A < h.nextA → Unreferenced h A → Unreferenced h1 A) ∧
      (∀ es, EntriesMatch h l es → EntriesMatch h1 c es) := by
  intro fuel
  induction fuel with
  | zero =>
    intro h l h1 c heq
    simp [deepcopyEntriesF] at heq
  | succ n ih =>
    intro h l h1 c heq hwf hl
    cases l with
    | nil =>
      rw [deepcopyEntriesF] at heq
      cases heq
      exact ⟨heapAgreesBelow_refl _ _, le_refl _, hwf, rfl,
        fun q hq => absurd hq (by simp), fun q hq => absurd hq (by simp),
        fun A _ hu => hu, fun es hm => hm⟩
    | cons p rest =>
      obtain ⟨k, v⟩ := p
      cases v with
      | atom j =>
        rw [deepcopyEntriesF] at heq
        split at heq
        next hrest => exact absurd heq (by simp)
        next hr r hrest =>
          cases heq
          obtain ⟨ha, hle, hwf1, hmap, hlt, hge, hpres, hmatch⟩ :=
            ih h rest h1 r hrest hwf
              (fun q hq => hl q (List.mem_cons_of_mem _ hq))
          refine ⟨ha, hle, hwf1, by simp [hmap], ?_, ?_, hpres, ?_⟩
          · intro q hq
            rcases List.mem_cons.mp hq with rfl | hq
            · rfl
            · exact hlt q hq
          · intro q hq
            rcases List.mem_cons.mp hq with rfl | hq
            · rfl
            · exact hge q hq
          · intro es hm
            obtain ⟨j2, es2, rfl, hvj, hm2⟩ := EntriesMatch_cons_inv hm
            obtain ⟨rfl, hno⟩ := ValMatches_atom_inv hvj
            exact EntriesMatch_cons (.atom _ hno) (hmatch es2 hm2)
      | dictRef a =>
        rw [deepcopyEntriesF] at heq
        split at heq
        next hra => exact absurd heq (by simp)
        next entries hra =>
          split at heq
          next hnest => exact absurd heq (by simp)
          next hm0 copied hnest =>
            have heq2 : (match deepcopyEntriesF n (hm0.alloc copied).1 rest with
                | none => none
                | some (h2, r) =>
                  some (h2, (k, PVal.dictRef (hm0.alloc copied).2) :: r)) =
                some (h1, c) := heq
            clear heq
            split at heq2
            next hrest => exact absurd heq2 (by simp)
            next h2 r hrest =>
              cases heq2
              have hentries := Heap.read_refLt_of_WF hwf hra
              obtain ⟨ha1, hle1, hwf1, hmap1, hlt1, hge1, hpres1, hmatch1⟩ :=
                ih h entries hm0 copied hnest hwf hentries
              have hwfAl : Heap.WF (hm0.alloc copied).1 :=
                Heap.WF_alloc hwf1 hlt1
              have haAl : heapAgreesBelow hm0.nextA hm0 (hm0.alloc copied).1 :=
                heapAgreesBelow_alloc (le_refl _)
              have hA1 : (hm0.alloc copied).1.nextA = hm0.nextA + 1 := rfl
              have hA2 : (hm0.alloc copied).2 = hm0.nextA := rfl
              obtain ⟨ha2, hle2, hwf2, hmap2, hlt2, hge2, hpres2, hmatch2⟩ :=
                ih (hm0.alloc copied).1 rest h1 r hrest hwfAl
                  (fun q hq =>
                    PVal.refLt_mono (hl q (List.mem_cons_of_mem _ hq))
                      (Nat.le_succ_of_le hle1))
              have hleAl : h.nextA ≤ (hm0.alloc copied).1.nextA :=
                Nat.le_succ_of_le hle1
              refine ⟨?_, ?_, hwf2, by simp [hmap2], ?_, ?_, ?_, ?_⟩
              · exact heapAgreesBelow_trans ha1 (heapAgreesBelow_trans
                  (heapAgreesBelow_mono hle1 haAl)
                  (heapAgreesBelow_mono hleAl ha2))
              · omega
              · intro q hq
                rcases List.mem_cons.mp hq with rfl | hq
                · simp only [PVal.refLt, decide_eq_true_eq]
                  omega
                · exact hlt2 q hq
              · intro q hq
                rcases List.mem_cons.mp hq with rfl | hq
                · simp only [PVal.refGe, decide_eq_true_eq]
                  omega
                · exact PVal.refGe_mono (hge2 q hq) hleAl
              · intro A hA hu
                have huAl : Unreferenced (hm0.alloc copied).1 A :=
                  Unreferenced_alloc (hpres1 A hA hu)
                    (fun q hq => PVal.refsAddr_false_of_refGe (hge1 q hq) hA)
                exact hpres2 A (lt_of_lt_of_le hA hleAl) huAl
              · intro es hm
                obtain ⟨j1, es2, rfl, hvj, hmrest⟩ := EntriesMatch_cons_inv hm
                obtain ⟨oA, esA, rfl, hreadA, hmA⟩ := ValMatches_dict_inv hvj
                rw [hra] at hreadA
                obtain rfl := Option.some.inj hreadA
                have hheadAl : ValMatches (hm0.alloc copied).1
                    (.dictRef (hm0.alloc copied).2) (.obj esA) :=
                  ValMatches_dict_intro (Heap.read_alloc_self hm0 copied hwf1)
                    (EntriesMatch_of_agreesBelow (hmatch1 esA hmA) hwf1 haAl)
                have hhead : ValMatches h1 (.dictRef (hm0.alloc copied).2)
                    (.obj esA) :=
                  ValMatches_of_agreesBelow hheadAl hwfAl ha2
                have htail : EntriesMatch h1 r es2 :=
                  hmatch2 es2 (EntriesMatch_of_agreesBelow hmrest hwf
                    (heapAgreesBelow_trans ha1
                      (heapAgreesBelow_mono hle1 haAl)))
                exact EntriesMatch_cons hhead htail

/-- `deepcopyVal` on an in-bounds value: pure allocation, an in-bounds
result whose root (when a dict) is fresh and unreferenced, preservation of
unreferencedness below the old watermark, and representation of the same
JSON tree. -/
theorem deepcopyVal_spec (fuel : Nat) (h : Heap) (v v1 : PVal) (h1 : Heap)
    (heq : deepcopyVal fuel h v = some (h1, v1)) (hwf : Heap.WF h) :
    heapAgreesBelow h.nextA h h1 ∧ h.nextA ≤ h1.nextA ∧ Heap.WF h1 ∧
    PVal.refLt h1.nextA v1 = true ∧
    (∀ A, A < h.nextA → Unreferenced h A → Unreferenced h1 A) ∧
    (∀ a2, v1 = PVal.dictRef a2 → h.nextA ≤ a2 ∧ Unreferenced h1 a2) ∧
    (∀ j, ValMatches h v j → ValMatches h1 v1 j) := by
  cases v with
  | atom j =>
    rw [deepcopyVal] at heq
    cases heq
    exact ⟨heapAgreesBelow_refl _ _, le_refl _, hwf, rfl, fun A _ hu => hu,
      fun a2 ha2 => absurd ha2 (by simp), fun j2 hm => hm⟩
  | dictRef a =>
    rw [deepcopyVal] at heq
    split at heq
    next hra => exact absurd heq (by simp)
    next entries hra =>
      split at heq
      next hnest => exact absurd heq (by simp)
      next hm0 copied hnest =>
        cases heq
        obtain ⟨ha1, hle1, hwf1, hmap1, hlt1, hge1, hpres1, hmatch1⟩ :=
          deepcopyEntriesF_spec fuel h entries hm0 copied hnest hwf
            (Heap.read_refLt_of_WF hwf hra)
        have hwfAl : Heap.WF (hm0.alloc copied).1 := Heap.WF_alloc hwf1 hlt1
        have haAl : heapAgreesBelow hm0.nextA hm0 (hm0.alloc copied).1 :=
          heapAgreesBelow_alloc (le_refl _)
        have hA1 : (hm0.alloc copied).1.nextA = hm0.nextA + 1 := rfl
        have hA2 : (hm0.alloc copied).2 = hm0.nextA := rfl
        have huRoot : Unreferenced (hm0.alloc copied).1 hm0.nextA :=
          Unreferenced_alloc (Unreferenced_of_WF_ge hwf1 (le_refl _))
            (fun q hq => PVal.refsAddr_false_of_refLt (hlt1 q hq) (le_refl _))
        refine ⟨?_, ?_, hwfAl, ?_, ?_, ?_, ?_⟩
        · exact heapAgreesBelow_trans ha1 (heapAgreesBelow_mono hle1 haAl)
        · omega
        · simp only [PVal.refLt, decide_eq_true_eq]
          omega
        · intro A hA hu
          exact Unreferenced_alloc (hpres1 A hA hu)
            (fun q hq => PVal.refsAddr_false_of_refGe (hge1 q hq) hA)
        · intro a2 ha2
          obtain rfl := PVal.dictRef.inj ha2
          exact ⟨by omega, huRoot⟩
        · intro j hm
          obtain ⟨oA, esA, rfl, hreadA, hmA⟩ := ValMatches_dict_inv hm
          rw [hra] at hreadA
          obtain rfl := Option.some.inj hreadA
          exact ValMatches_dict_intro (Heap.read_alloc_self hm0 copied hwf1)
            (EntriesMatch_of_agreesBelow (hmatch1 esA hmA) hwf1 haAl)

theorem PVal.refsAddr_dictRef_false {A rt : Nat} (h : rt ≠ A) :
    PVal.refsAddr A (.dictRef rt) = false := by
  simp only [PVal.refsAddr, decide_eq_false_iff_not]
  exact h

/-- Joint specification of the two phases of `recursive_update_run`, by
induction on fuel.  A successful run with `in_place=False` (`top` clause)
leaves every cell below the entry watermark untouched, only allocates and
writes at or above it, and produces a value representing exactly the JSON
tree the pure model computes with the same fuel; the `items` clause is the
loop invariant, with `m` the frame boundary below which nothing is
written. -/
theorem recursive_update_run_spec : ∀ fuel : Nat,
    (∀ (h : Heap) (origV : PVal) (updA : Nat) (jO jU : JVal) (h2 : Heap)
       (r : PVal),
      Heap.WF h →
      ValMatches h origV jO →
      ValMatches h (.dictRef updA) jU →
      recursive_update_run fuel h (.top origV updA false) =
        some (.ok (h2, r)) →
      heapAgreesBelow h.nextA h h2 ∧ h.nextA ≤ h2.nextA ∧ Heap.WF h2 ∧
      (∀ A, A < h.nextA → Unreferenced h A → Unreferenced h2 A) ∧
      (∀ a2, r = PVal.dictRef a2 → h.nextA ≤ a2) ∧
      ∃ jR, recursive_update_pure_run fuel (.top jO jU) = some (.ok jR) ∧
        ValMatches h2 r jR) ∧
    (∀ (h : Heap) (out : PVal) (pend : List (String × PVal)) (jOut : JVal)
       (jPend : List (String × JVal)) (h2 : Heap) (r : PVal) (m : Nat),
      Heap.WF h →
      m ≤ h.nextA →
      MatchOut h m out jOut →
      EntriesMatch h pend jPend →
      (∀ q ∈ pend, PVal.refLt m q.2 = true) →
      recursive_update_run fuel h (.items out pend) = some (.ok (h2, r)) →
      heapAgreesBelow m h h2 ∧ h.nextA ≤ h2.nextA ∧ Heap.WF h2 ∧
      (∀ A, A < m → Unreferenced h A → Unreferenced h2 A) ∧
      r = out ∧
      ∃ jR, recursive_update_pure_run fuel (.items jOut jPend) =
          some (.ok jR) ∧ MatchOut h2 m out jR) := by
  intro fuel
  induction fuel with
  | zero =>
    constructor
    · intro h origV updA jO jU h2 r _ _ _ heq
      have heq2 : (none : Option (Except Unit (Heap × PVal))) =
          some (.ok (h2, r)) := heq
      exact absurd heq2 (by simp)
    · intro h out pend jOut jPend h2 r m _ _ _ _ _ heq
      have heq2 : (none : Option (Except Unit (Heap × PVal))) =
          some (.ok (h2, r)) := heq
      exact absurd heq2 (by simp)
  | succ n ih =>
    obtain ⟨ihTop, ihItems⟩ := ih
    have hitems : ∀ (h : Heap) (out : PVal) (pend : List (String × PVal))
        (jOut : JVal) (jPend : List (String × JVal)) (h2 : Heap) (r : PVal)
        (m : Nat),
        Heap.WF h →
        m ≤ h.nextA →
        MatchOut h m out jOut →
        EntriesMatch h pend jPend →
        (∀ q ∈ pend, PVal.refLt m q.2 = true) →
        recursive_update_run (n + 1) h (.items out pend) =
          some (.ok (h2, r)) →
        heapAgreesBelow m h h2 ∧ h.nextA ≤ h2.nextA ∧ Heap.WF h2 ∧
        (∀ A, A < m → Unreferenced h A → Unreferenced h2 A) ∧
        r = out ∧
        ∃ jR, recursive_update_pure_run (n + 1) (.items jOut jPend) =
            some (.ok jR) ∧ MatchOut h2 m out jR := by
      intro h out pend jOut jPend h2 r m hwf hmle hmo hmp hpl heq
      cases pend with
      | nil =>
        obtain rfl : jPend = [] := by
          cases jPend with
          | nil => rfl
          | cons e t => exact absurd hmp.1 (by simp)
        have heq2 : (some (.ok (h, out)) : Option (Except Unit (Heap × PVal))) =
            some (.ok (h2, r)) := heq
        cases heq2
        exact ⟨heapAgreesBelow_refl _ _, le_refl _, hwf, fun A _ hu => hu, rfl,
          jOut, rfl, hmo⟩
      | cons p rest =>
        obtain ⟨k, v⟩ := p
        obtain ⟨j, jRest, rfl, hvj, hmrest⟩ := EntriesMatch_cons_inv hmp
        have hvm : PVal.refLt m v = true := hpl (k, v) (List.mem_cons_self _ _)
        have hplrest : ∀ q ∈ rest, PVal.refLt m q.2 = true :=
          fun q hq => hpl q (List.mem_cons_of_mem _ hq)
        cases v with
        | atom av =>
          obtain ⟨rfl, hno⟩ := ValMatches_atom_inv hvj
          cases out with
          | atom ov =>
            have heq2 : (some (.error ()) : Option (Except Unit (Heap × PVal))) =
                some (.ok (h2, r)) := heq
            exact absurd heq2 (by simp)
          | dictRef oAddr =>
            obtain ⟨hmoA, hmoB, hu, oE, jOE, hread, rfl, hmE⟩ := hmo
            have heq2 : (match h.read oAddr with
                | none => (none : Option (Except Unit (Heap × PVal)))
                | some oE2 => recursive_update_run n
                    (h.write oAddr (assocSet oE2 k (.atom j)))
                    (.items (.dictRef oAddr) rest)) = some (.ok (h2, r)) := heq
            clear heq
            rw [hread] at heq2
            have heq3 : recursive_update_run n
                (h.write oAddr (assocSet oE k (.atom j)))
                (.items (.dictRef oAddr) rest) = some (.ok (h2, r)) := heq2
            clear heq2
            have hoEmem : (oAddr, oE) ∈ h.cells := assocGet_mem hread
            have hoEwf := Heap.read_refLt_of_WF hwf hread
            have hoEref : ∀ q ∈ oE, PVal.refsAddr oAddr q.2 = false :=
              fun q hq => hu (oAddr, oE) hoEmem q hq
            have hwf3 : Heap.WF (h.write oAddr (assocSet oE k (.atom j))) :=
              Heap.WF_write hwf hmoB (fun q hq => by
                rcases mem_assocSet hq with rfl | hq
                · rfl
                · exact hoEwf q hq)
            have hu3 : Unreferenced
                (h.write oAddr (assocSet oE k (.atom j))) oAddr :=
              Unreferenced_write hu (fun q hq => by
                rcases mem_assocSet hq with rfl | hq
                · rfl
                · exact hoEref q hq)
            have hmo3 : MatchOut (h.write oAddr (assocSet oE k (.atom j))) m
                (.dictRef oAddr) (.obj (assocSet jOE k j)) := by
              refine ⟨hmoA, hmoB, hu3, assocSet oE k (.atom j),
                assocSet jOE k j, Heap.read_write_self _ _ _, rfl, ?_⟩
              exact EntriesMatch_assocSet
                (EntriesMatch_write_unref hmE hu hoEref) (.atom j hno)
            have hmrest3 : EntriesMatch
                (h.write oAddr (assocSet oE k (.atom j))) rest jRest :=
              EntriesMatch_write_unref hmrest hu
                (fun q hq => PVal.refsAddr_false_of_refLt (hplrest q hq) hmoA)
            obtain ⟨hagr, hle4, hwf4, hpres4, rfl, jR, hpure4, hmo4⟩ :=
              ihItems (h.write oAddr (assocSet oE k (.atom j)))
                (.dictRef oAddr) rest (.obj (assocSet jOE k j)) jRest h2 r m
                hwf3 hmle hmo3 hmrest3 hplrest heq3
            refine ⟨?_, hle4, hwf4, ?_, rfl, jR, ?_, hmo4⟩
            · exact heapAgreesBelow_trans (heapAgreesBelow_write hmoA) hagr
            · intro A hA hu0
              refine hpres4 A hA (Unreferenced_write hu0 ?_)
              intro q hq
              rcases mem_assocSet hq with rfl | hq
              · rfl
              · exact hu0 (oAddr, oE) hoEmem q hq
            · have hstep : recursive_update_pure_run (n + 1)
                  (.items (.obj jOE) ((k, j) :: jRest)) =
                  recursive_update_pure_run n
                    (.items (.obj (assocSet jOE k j)) jRest) := by
                cases j <;> first
                  | rfl
                  | exact absurd hno (by simp [JVal.isObj])
              rw [hstep]
              exact hpure4
        | dictRef a =>
          obtain ⟨aE, esA, rfl, hreadA, hmA⟩ := ValMatches_dict_inv hvj
          cases out with
          | atom ov =>
            have heq2 : (some (.error ()) : Option (Except Unit (Heap × PVal))) =
                some (.ok (h2, r)) := heq
            exact absurd heq2 (by simp)
          | dictRef oAddr =>
            obtain ⟨hmoA, hmoB, hu, oE, jOE, hread, rfl, hmE⟩ := hmo
            have heq2 : (match h.read oAddr with
                | none => (none : Option (Except Unit (Heap × PVal)))
                | some oEntries =>
                  let cur : Heap × PVal :=
                    match assocGet oEntries k with
                    | some c => (h, c)
                    | none => ((h.alloc []).1, .dictRef (h.alloc []).2)
                  match recursive_update_run n cur.1 (.top cur.2 a false) with
                  | none => none
                  | some (.error e) => some (.error e)
                  | some (.ok (h2x, rx)) =>
                    match h2x.read oAddr with
                    | none => none
                    | some oE2 =>
                      recursive_update_run n
                        (h2x.write oAddr (assocSet oE2 k rx))
                        (.items (.dictRef oAddr) rest)) =
                some (.ok (h2, r)) := heq
            clear heq
            rw [hread] at heq2
            have heq3 : (let cur : Heap × PVal :=
                  match assocGet oE k with
                  | some c => (h, c)
                  | none => ((h.alloc []).1, .dictRef (h.alloc []).2)
                match recursive_update_run n cur.1 (.top cur.2 a false) with
                | none => (none : Option (Except Unit (Heap × PVal)))
                | some (.error e) => some (.error e)
                | some (.ok (h2x, rx)) =>
                  match h2x.read oAddr with
                  | none => none
                  | some oE2 =>
                    recursive_update_run n
                      (h2x.write oAddr (assocSet oE2 k rx))
                      (.items (.dictRef oAddr) rest)) =
                some (.ok (h2, r)) := heq2
            clear heq2
            cases hlook : assocGet oE k with
            | some cv =>
              have heq4 : (match recursive_update_run n h
                    (.top cv a false) with
                  | none => (none : Option (Except Unit (Heap × PVal)))
                  | some (.error e) => some (.error e)
                  | some (.ok (h2x, rx)) =>
                    match h2x.read oAddr with
                    | none => none
                    | some oE2 =>
                      recursive_update_run n
                        (h2x.write oAddr (assocSet oE2 k rx))
                        (.items (.dictRef oAddr) rest)) =
                  some (.ok (h2, r)) := by
                rw [hlook] at heq3
                exact heq3
              clear heq3
              rcases EntriesMatch_lookup k hmE with ⟨hn1, _⟩ |
                ⟨cv2, jc, hsome, hjsome, hcvm⟩
              · rw [hlook] at hn1
                exact absurd hn1 (by simp)
              · rw [hlook] at hsome
                obtain rfl := Option.some.inj hsome
                split at heq4
                next hinner => exact absurd heq4 (by simp)
                next e hinner => exact absurd heq4 (by simp)
                next h2x rx hinner =>
                  obtain ⟨hagI, hleI, hwfI, hpresI, hrootI, jr, hpureI, hmrI⟩ :=
                    ihTop h cv a jc (.obj esA) h2x rx hwf hcvm hvj hinner
                  have hread2x : h2x.read oAddr = some oE := by
                    rw [hagI oAddr hmoB]; exact hread
                  split at heq4
                  next hrdX => rw [hread2x] at hrdX; exact absurd hrdX (by simp)
                  next oE2 hrdX =>
                    rw [hread2x] at hrdX
                    obtain rfl := Option.some.inj hrdX
                    have hrxref : PVal.refsAddr oAddr rx = false := by
                      cases rx with
                      | atom av2 => rfl
                      | dictRef rt =>
                        have hge := hrootI rt rfl
                        exact PVal.refsAddr_dictRef_false (by omega)
                    have huX : Unreferenced h2x oAddr := hpresI oAddr hmoB hu
                    have hoEmemX : (oAddr, oE) ∈ h2x.cells :=
                      assocGet_mem hread2x
                    have hoErefX : ∀ q ∈ oE, PVal.refsAddr oAddr q.2 = false :=
                      fun q hq => huX (oAddr, oE) hoEmemX q hq
                    have hrxlt : PVal.refLt h2x.nextA rx = true :=
                      ValMatches_refLt hmrI hwfI
                    have hoEwfX := Heap.read_refLt_of_WF hwfI hread2x
                    have hwf3 : Heap.WF (h2x.write oAddr (assocSet oE k rx)) :=
                      Heap.WF_write hwfI (lt_of_lt_of_le hmoB hleI)
                        (fun q hq => by
                          rcases mem_assocSet hq with rfl | hq
                          · exact hrxlt
                          · exact hoEwfX q hq)
                    have hu3 : Unreferenced
                        (h2x.write oAddr (assocSet oE k rx)) oAddr :=
                      Unreferenced_write huX (fun q hq => by
                        rcases mem_assocSet hq with rfl | hq
                        · exact hrxref
                        · exact hoErefX q hq)
                    have hmE3 : EntriesMatch
                        (h2x.write oAddr (assocSet oE k rx)) oE jOE :=
                      EntriesMatch_write_unref
                        (EntriesMatch_of_agreesBelow hmE hwf hagI) huX hoErefX
                    have hmo3 : MatchOut (h2x.write oAddr (assocSet oE k rx))
                        m (.dictRef oAddr) (.obj (assocSet jOE k jr)) := by
                      refine ⟨hmoA, lt_of_lt_of_le hmoB hleI, hu3,
                        assocSet oE k rx, assocSet jOE k jr,
                        Heap.read_write_self _ _ _, rfl, ?_⟩
                      exact EntriesMatch_assocSet hmE3
                        (ValMatches_write_unref hmrI huX hrxref)
                    have hmrest3 : EntriesMatch
                        (h2x.write oAddr (assocSet oE k rx)) rest jRest :=
                      EntriesMatch_write_unref
                        (EntriesMatch_of_agreesBelow hmrest hwf hagI) huX
                        (fun q hq => PVal.refsAddr_false_of_refLt
                          (hplrest q hq) hmoA)
                    obtain ⟨hagr, hle4, hwf4, hpres4, rfl, jR, hpure4, hmo4⟩ :=
                      ihItems (h2x.write oAddr (assocSet oE k rx))
                        (.dictRef oAddr) rest (.obj (assocSet jOE k jr))
                        jRest h2 r m hwf3 (le_trans hmle hleI) hmo3 hmrest3
                        hplrest heq4
                    have e1 : (h2x.write oAddr (assocSet oE k rx)).nextA =
                        h2x.nextA := rfl
                    refine ⟨?_, by omega, hwf4, ?_, rfl, jR, ?_, hmo4⟩
                    · exact heapAgreesBelow_trans
                        (heapAgreesBelow_mono hmle hagI)
                        (heapAgreesBelow_trans (heapAgreesBelow_write hmoA)
                          hagr)
                    · intro A hA hu0
                      have huX0 : Unreferenced h2x A :=
                        hpresI A (lt_of_lt_of_le hA hmle) hu0
                      refine hpres4 A hA (Unreferenced_write huX0 ?_)
                      intro q hq
                      rcases mem_assocSet hq with rfl | hq
                      · cases rx with
                        | atom av2 => rfl
                        | dictRef rt =>
                          have hge := hrootI rt rfl
                          exact PVal.refsAddr_dictRef_false (by omega)
                      · exact huX0 (oAddr, oE) hoEmemX q hq
                    · have hstep : recursive_update_pure_run (n + 1)
                          (.items (.obj jOE) ((k, JVal.obj esA) :: jRest)) =
                          (match recursive_update_pure_run n
                              (.top ((assocGet jOE k).getD (.obj []))
                                (.obj esA)) with
                            | none => none
                            | some (.error e) => some (.error e)
                            | some (.ok r0) => recursive_update_pure_run n
                                (.items (.obj (assocSet jOE k r0)) jRest)) :=
                        rfl
                      rw [hstep, hjsome, Option.getD_some, hpureI]
                      exact hpure4
            | none =>
              have heq4 : (match recursive_update_run n (h.alloc []).1
                    (.top (.dictRef (h.alloc []).2) a false) with
                  | none => (none : Option (Except Unit (Heap × PVal)))
                  | some (.error e) => some (.error e)
                  | some (.ok (h2x, rx)) =>
                    match h2x.read oAddr with
                    | none => none
                    | some oE2 =>
                      recursive_update_run n
                        (h2x.write oAddr (assocSet oE2 k rx))
                        (.items (.dictRef oAddr) rest)) =
                  some (.ok (h2, r)) := by
                rw [hlook] at heq3
                exact heq3
              clear heq3
              rcases EntriesMatch_lookup k hmE with ⟨hn1, hjnone⟩ |
                ⟨cv2, jc, hsome, hjsome, hcvm⟩
              swap
              · rw [hlook] at hsome
                exact absurd hsome (by simp)
              · have hwfIn : Heap.WF (h.alloc []).1 :=
                  Heap.WF_alloc hwf (fun q hq => absurd hq (by simp))
                have haIn : heapAgreesBelow h.nextA h (h.alloc []).1 :=
                  heapAgreesBelow_alloc (le_refl _)
                have eIn : (h.alloc []).1.nextA = h.nextA + 1 := rfl
                have huIn : Unreferenced (h.alloc []).1 oAddr :=
                  Unreferenced_alloc hu (fun q hq => absurd hq (by simp))
                have hmuIn : ValMatches (h.alloc []).1 (.dictRef a)
                    (.obj esA) := ValMatches_of_agreesBelow hvj hwf haIn
                have hcurm : ValMatches (h.alloc []).1
                    (.dictRef (h.alloc []).2) (.obj []) :=
                  ValMatches_dict_intro (Heap.read_alloc_self h [] hwf)
                    (EntriesMatch_nil _)
                split at heq4
                next hinner => exact absurd heq4 (by simp)
                next e hinner => exact absurd heq4 (by simp)
                next h2x rx hinner =>
                  obtain ⟨hagI, hleI, hwfI, hpresI, hrootI, jr, hpureI, hmrI⟩ :=
                    ihTop (h.alloc []).1 (.dictRef (h.alloc []).2) a
                      (.obj []) (.obj esA) h2x rx hwfIn hcurm hmuIn hinner
                  rw [eIn] at hleI
                  have hmoBIn : oAddr < (h.alloc []).1.nextA := by
                    rw [eIn]; omega
                  have hmleIn : m ≤ (h.alloc []).1.nextA := by
                    rw [eIn]; omega
                  have hread2x : h2x.read oAddr = some oE := by
                    rw [hagI oAddr hmoBIn,
                      Heap.read_alloc_ne h oAddr [] (by omega)]
                    exact hread
                  split at heq4
                  next hrdX => rw [hread2x] at hrdX; exact absurd hrdX (by simp)
                  next oE2 hrdX =>
                    rw [hread2x] at hrdX
                    obtain rfl := Option.some.inj hrdX
                    have hrxref : PVal.refsAddr oAddr rx = false := by
                      cases rx with
                      | atom av2 => rfl
                      | dictRef rt =>
                        have hge := hrootI rt rfl
                        rw [eIn] at hge
                        exact PVal.refsAddr_dictRef_false (by omega)
                    have huX : Unreferenced h2x oAddr :=
                      hpresI oAddr hmoBIn huIn
                    have hoEmemX : (oAddr, oE) ∈ h2x.cells :=
                      assocGet_mem hread2x
                    have hoErefX : ∀ q ∈ oE, PVal.refsAddr oAddr q.2 = false :=
                      fun q hq => huX (oAddr, oE) hoEmemX q hq
                    have hrxlt : PVal.refLt h2x.nextA rx = true :=
                      ValMatches_refLt hmrI hwfI
                    have hoEwfX := Heap.read_refLt_of_WF hwfI hread2x
                    have hmoBX : oAddr < h2x.nextA := by omega
                    have hwf3 : Heap.WF (h2x.write oAddr (assocSet oE k rx)) :=
                      Heap.WF_write hwfI hmoBX (fun q hq => by
                        rcases mem_assocSet hq with rfl | hq
                        · exact hrxlt
                        · exact hoEwfX q hq)
                    have hu3 : Unreferenced
                        (h2x.write oAddr (assocSet oE k rx)) oAddr :=
                      Unreferenced_write huX (fun q hq => by
                        rcases mem_assocSet hq with rfl | hq
                        · exact hrxref
                        · exact hoErefX q hq)
                    have hmE3 : EntriesMatch
                        (h2x.write oAddr (assocSet oE k rx)) oE jOE :=
                      EntriesMatch_write_unref
                        (EntriesMatch_of_agreesBelow
                          (EntriesMatch_of_agreesBelow hmE hwf haIn)
                          hwfIn hagI) huX hoErefX
                    have hmo3 : MatchOut (h2x.write oAddr (assocSet oE k rx))
                        m (.dictRef oAddr) (.obj (assocSet jOE k jr)) := by
                      refine ⟨hmoA, hmoBX, hu3,
                        assocSet oE k rx, assocSet jOE k jr,
                        Heap.read_write_self _ _ _, rfl, ?_⟩
                      exact EntriesMatch_assocSet hmE3
                        (ValMatches_write_unref hmrI huX hrxref)
                    have hmrest3 : EntriesMatch
                        (h2x.write oAddr (assocSet oE k rx)) rest jRest :=
                      EntriesMatch_write_unref
                        (EntriesMatch_of_agreesBelow
                          (EntriesMatch_of_agreesBelow hmrest hwf haIn)
                          hwfIn hagI) huX
                        (fun q hq => PVal.refsAddr_false_of_refLt
                          (hplrest q hq) hmoA)
                    obtain ⟨hagr, hle4, hwf4, hpres4, rfl, jR, hpure4, hmo4⟩ :=
                      ihItems (h2x.write oAddr (assocSet oE k rx))
                        (.dictRef oAddr) rest (.obj (assocSet jOE k jr))
                        jRest h2 r m hwf3
                        (by have e1 : (h2x.write oAddr
                              (assocSet oE k rx)).nextA = h2x.nextA := rfl
                            omega)
                        hmo3 hmrest3 hplrest heq4
                    have e1 : (h2x.write oAddr (assocSet oE k rx)).nextA =
                        h2x.nextA := rfl
                    refine ⟨?_, by omega, hwf4, ?_, rfl, jR, ?_, hmo4⟩
                    · exact heapAgreesBelow_trans
                        (heapAgreesBelow_mono hmle haIn)
                        (heapAgreesBelow_trans
                          (heapAgreesBelow_mono hmleIn hagI)
                          (heapAgreesBelow_trans
                            (heapAgreesBelow_write hmoA) hagr))
                    · intro A hA hu0
                      have huIn0 : Unreferenced (h.alloc []).1 A :=
                        Unreferenced_alloc hu0 (fun q hq => absurd hq (by simp))
                      have huX0 : Unreferenced h2x A :=
                        hpresI A (lt_of_lt_of_le hA hmleIn) huIn0
                      refine hpres4 A hA (Unreferenced_write huX0 ?_)
                      intro q hq
                      rcases mem_assocSet hq with rfl | hq
                      · cases rx with
                        | atom av2 => rfl
                        | dictRef rt =>
                          have hge := hrootI rt rfl
                          rw [eIn] at hge
                          exact PVal.refsAddr_dictRef_false (by omega)
                      · exact huX0 (oAddr, oE) hoEmemX q hq
                    · have hstep : recursive_update_pure_run (n + 1)
                          (.items (.obj jOE) ((k, JVal.obj esA) :: jRest)) =
                          (match recursive_update_pure_run n
                              (.top ((assocGet jOE k).getD (.obj []))
                                (.obj esA)) with
                            | none => none
                            | some (.error e) => some (.error e)
                            | some (.ok r0) => recursive_update_pure_run n
                                (.items (.obj (assocSet jOE k r0)) jRest)) :=
                        rfl
                      rw [hstep, hjnone, Option.getD_none, hpureI]
                      exact hpure4
    have htop : ∀ (h : Heap) (origV : PVal) (updA : Nat) (jO jU : JVal)
        (h2 : Heap) (r : PVal),
        Heap.WF h →
        ValMatches h origV jO →
        ValMatches h (.dictRef updA) jU →
        recursive_update_run (n + 1) h (.top origV updA false) =
          some (.ok (h2, r)) →
        heapAgreesBelow h.nextA h h2 ∧ h.nextA ≤ h2.nextA ∧ Heap.WF h2 ∧
        (∀ A, A < h.nextA → Unreferenced h A → Unreferenced h2 A) ∧
        (∀ a2, r = PVal.dictRef a2 → h.nextA ≤ a2) ∧
        ∃ jR, recursive_update_pure_run (n + 1) (.top jO jU) =
            some (.ok jR) ∧ ValMatches h2 r jR := by
      intro h origV updA jO jU h2 r hwf hmo hmu heq
      have heq2 : (match deepcopyVal (n + 1) h origV with
          | none => (none : Option (Except Unit (Heap × PVal)))
          | some (h1, out) =>
            match h1.read updA with
            | none => none
            | some items => recursive_update_run n h1 (.items out items)) =
          some (.ok (h2, r)) := heq
      clear heq
      split at heq2
      next hdc => exact absurd heq2 (by simp)
      next h1x outv hdc =>
        obtain ⟨haD, hleD, hwfD, hltD, hpresD, hrootD, hmatchD⟩ :=
          deepcopyVal_spec (n + 1) h origV outv h1x hdc hwf
        obtain ⟨uo, jUE, rfl, hreadU, hmU⟩ := ValMatches_dict_inv hmu
        have hupdlt : updA < h.nextA := Heap.read_lt_of_WF hwf hreadU
        have hrdU : h1x.read updA = some uo := by
          rw [haD updA hupdlt]; exact hreadU
        split at heq2
        next hrd => rw [hrdU] at hrd; exact absurd hrd (by simp)
        next items hrd =>
          rw [hrdU] at hrd
          obtain rfl := Option.some.inj hrd
          have hmoOut : MatchOut h1x h.nextA outv jO := by
            cases outv with
            | atom ov => exact hmatchD jO hmo
            | dictRef rt =>
              obtain ⟨cE, cES, hje, hreadC, hmC⟩ :=
                ValMatches_dict_inv (hmatchD jO hmo)
              obtain ⟨hge, hunr⟩ := hrootD rt rfl
              refine ⟨hge, ?_, hunr, cE, cES, hreadC, hje, hmC⟩
              have h5 := hltD
              simp only [PVal.refLt, decide_eq_true_eq] at h5
              exact h5
          have hmU1 : EntriesMatch h1x uo jUE :=
            EntriesMatch_of_agreesBelow hmU hwf haD
          have hplU : ∀ q ∈ uo, PVal.refLt h.nextA q.2 = true :=
            Heap.read_refLt_of_WF hwf hreadU
          obtain ⟨hagr, hleF, hwfF, hpresF, rfl, jR, hpure, hmoF⟩ :=
            ihItems h1x outv uo jO jUE h2 r h.nextA hwfD hleD hmoOut hmU1
              hplU heq2
          refine ⟨heapAgreesBelow_trans haD hagr, le_trans hleD hleF, hwfF,
            ?_, ?_, jR, ?_, ?_⟩
          · intro A hA hu0
            exact hpresF A hA (hpresD A hA hu0)
          · exact fun a2 ha2 => (hrootD a2 ha2).1
          · have hstep : recursive_update_pure_run (n + 1)
                (.top jO (.obj jUE)) =
                recursive_update_pure_run n (.items jO jUE) := rfl
            rw [hstep]
            exact hpure
          · cases r with
            | atom ov => exact hmoF
            | dictRef rt =>
              obtain ⟨_, _, _, fE, fES, hreadF, rfl, hmF⟩ := hmoF
              exact ValMatches_dict_intro hreadF hmF
    exact ⟨htop, hitems⟩


/-- C10 (counterexample): `original = {"a": 1}` and `update = {"a": {"b": 2}}`
are both dicts, yet `recursive_update(original, update, in_place=False)`
raises `TypeError` instead of returning the merged `{"a": {"b": 2}}`: the
inner recursive call receives the non-dict `1` as its `original` and then
executes `out[key] = value` on an `int`. -/
theorem recursive_update_dict_over_scalar_raises :
    recursive_update_heap 20 c10Heap (.dictRef 0) 1 false =
      some (.error ()) ∧
    c10Heap.read 0 = some [("a", .atom (.num 1))] ∧
    c10Heap.read 1 = some [("a", .dictRef 2)] ∧
    c10Heap.read 2 = some [("b", .atom (.num 2))] :=
  ⟨rfl, rfl, rfl, rfl⟩

/-- C10 (amended): for dict `original` and `update`, whenever
`recursive_update(original, update, in_place=False)` returns — it can
instead raise `TypeError` when a dict value of `update` collides with a
non-dict value of `original` — every heap cell allocated before the call
(`original`, `update`, and everything reachable from them) reads exactly as
before, and the returned value represents the recursive merge that the
pure model computes on the corresponding JSON trees. -/
theorem recursive_update_frame_and_merge (fuel : Nat) (h h2 : Heap)
    (origA updA : Nat) (r : PVal) (jO jU : JVal)
    (hwf : Heap.WF h)
    (hmo : ValMatches h (.dictRef origA) jO)
    (hmu : ValMatches h (.dictRef updA) jU)
    (hrun : recursive_update_heap fuel h (.dictRef origA) updA false =
      some (.ok (h2, r))) :
    heapAgreesBelow h.nextA h h2 ∧
    ∃ jR, recursive_update_pure fuel jO jU = some (.ok jR) ∧
      ValMatches h2 r jR := by
  obtain ⟨hag, _, _, _, _, jR, hpure, hm⟩ :=
    (recursive_update_run_spec fuel).1 h (.dictRef origA) updA jO jU h2 r
      hwf hmo hmu hrun
  exact ⟨hag, jR, hpure, hm⟩

/-- C10 witness: on `original = {"a": "x", "n": {"b": 1}}` (cells 0/1) and
`update = {"n": {"b": 3}, "k": 2}` (cells 2/3) the call returns the fresh
root at cell 5; cells 0-3 read as before and the result represents the
merged `{"a": "x", "n": {"b": 3}, "k": 2}`. -/
theorem recursive_update_frame_and_merge_witness :
    Heap.WF c10HeapOk ∧
    recursive_update_heap 20 c10HeapOk (.dictRef 0) 2 false =
      some (.ok (c10ResHeap, .dictRef 5)) ∧
    c10ResHeap.read 0 = c10HeapOk.read 0 ∧
    c10ResHeap.read 1 = c10HeapOk.read 1 ∧
    (∃ jR, recursive_update_pure 20 c10jO c10jU = some (.ok jR) ∧
      ValMatches c10ResHeap (.dictRef 5) jR) := by
  have hwf : Heap.WF c10HeapOk := by unfold Heap.WF; decide
  have m1 : ValMatches c10HeapOk (.dictRef 1) (.obj [("b", .num 1)]) :=
    ValMatches_dict_intro rfl
      (EntriesMatch_cons (.atom _ rfl) (EntriesMatch_nil _))
  have hmo : ValMatches c10HeapOk (.dictRef 0) c10jO :=
    ValMatches_dict_intro rfl
      (EntriesMatch_cons (.atom _ rfl)
        (EntriesMatch_cons m1 (EntriesMatch_nil _)))
  have m2 : ValMatches c10HeapOk (.dictRef 3) (.obj [("b", .num 3)]) :=
    ValMatches_dict_intro rfl
      (EntriesMatch_cons (.atom _ rfl) (EntriesMatch_nil _))
  have hmu : ValMatches c10HeapOk (.dictRef 2) c10jU :=
    ValMatches_dict_intro rfl
      (EntriesMatch_cons m2
        (EntriesMatch_cons (.atom _ rfl) (EntriesMatch_nil _)))
  have hmain := recursive_update_frame_and_merge 20 c10HeapOk c10ResHeap 0 2
    (.dictRef 5) c10jO c10jU hwf hmo hmu rfl
  exact ⟨hwf, rfl, hmain.1 0 (by decide), hmain.1 1 (by decide), hmain.2⟩

end BQIngest
